import Mathlib

/-!
Shallow embedding of the itinerary-optimization engine of
`supabase/functions/optimize-trip/index.ts`.

Numbers are modelled as rationals (`ℚ`).  JavaScript truthiness of
optional numeric fields (`undefined` and `0` are falsy) is modelled with
`Option ℚ` plus an explicit zero test.  The handler's work after the
external calls (status checks joined, oracle output parsed) is translated
as a pure function `optimizeTrip` from the joined status-checked
candidate list to the response value.
-/

namespace OptimizeTrip

/-- One candidate destination, as produced by the recommendation oracle and
annotated by the status checker (`{ ...dest, ...status }`, index.ts:217). -/
structure Dest where
  name : String
  category : String
  rating : ℚ
  /-- `popularity` may be absent; `dest.popularity || 5` treats `0` as absent. -/
  popularity : Option ℚ
  visitTime : ℚ
  travelTimeFromSource : ℚ
  distanceFromSource : ℚ
  /-- distance to the HOME address; `undefined`/`0` are falsy in the source. -/
  distanceToSource : Option ℚ
  isOpen : Bool
  willStayOpen : Bool
  deriving DecidableEq

/-- A destination carrying its computed score (`{ ...dest, score }`, index.ts:280). -/
structure Scored where
  dest : Dest
  score : ℚ
  deriving DecidableEq

/-- An entry of `skippedDestinations`: a destination, its score when it was
scored (absent in the all-closed early return), and a `skipReason`. -/
structure Skipped where
  dest : Dest
  score : Option ℚ
  skipReason : String
  deriving DecidableEq

/-- The `summary` JSON object.  The success path and the no-viable path
produce objects with different key sets; a key absent from the emitted
object is modelled as `none`. -/
structure Summary where
  totalLocations : Option ℚ
  totalDestinations : Option ℚ
  averageRating : Option ℚ
  totalDistance : Option ℚ
  totalVisitTime : ℚ
  totalTravelTime : ℚ
  totalTripTime : Option ℚ
  returnTime : Option ℚ
  averageScore : Option ℚ
  deriving DecidableEq

/-- The response body of the handler (success and no-viable shapes,
index.ts:226-244 and index.ts:347-358); keys absent from one of the two
shapes are `Option`s. -/
structure TripResponse where
  error : Option String
  startLocation : Option String
  homeAddress : Option String
  optimizedRoute : List Scored
  remainingTime : ℚ
  estimatedReturnTime : Option ℚ
  summary : Summary
  skippedDestinations : List Skipped
  deriving DecidableEq

/-- JavaScript `x || d` for an optional numeric field (`0` is falsy). -/
def jsOrQ (x : Option ℚ) (d : ℚ) : ℚ :=
  match x with
  | none => d
  | some v => if v = 0 then d else v

/-- JavaScript `x || d` for an optional string field (`""` is falsy). -/
def jsOrStr (x : Option String) (d : String) : String :=
  match x with
  | none => d
  | some s => if s = "" then d else s

/-- JavaScript truthiness of an optional numeric field. -/
def jsTruthy (x : Option ℚ) : Bool :=
  match x with
  | none => false
  | some v => decide (v ≠ 0)

/-- `Math.max(...)` over the values of a list; only ever applied to a
nonempty list in the handler (the `[]` case is unreachable there). -/
def jsMaxList : List ℚ → ℚ
  | [] => 0
  | [x] => x
  | x :: y :: xs => max x (jsMaxList (y :: xs))

/-! ## ScoreModel (index.ts:250-281) -/

/-- `dest.rating / 5.0` (index.ts:252). -/
def ratingScore (d : Dest) : ℚ := d.rating / 5

/-- Leg time of one destination: `visitTime + travelTimeFromSource`. -/
def destLeg (d : Dest) : ℚ := d.visitTime + d.travelTimeFromSource

/-- Distance sub-score over the open candidate set (index.ts:253-254). -/
def distanceScore (openDestinations : List Dest) (d : Dest) : ℚ :=
  let maxDistance := jsMaxList (openDestinations.map (·.distanceFromSource))
  if maxDistance > 0 then 1 - d.distanceFromSource / maxDistance else 1

/-- Time sub-score over the open candidate set (index.ts:256-257). -/
def timeScore (openDestinations : List Dest) (d : Dest) : ℚ :=
  let maxTime := jsMaxList (openDestinations.map destLeg)
  if maxTime > 0 then 1 - destLeg d / maxTime else 1

/-- `(dest.popularity || 5) / 10.0` (index.ts:259). -/
def popularityScore (d : Dest) : ℚ := jsOrQ d.popularity 5 / 10

/-- JavaScript `a.includes(b)`: `b` occurs contiguously inside `a`. -/
def strIncludes (a b : String) : Bool := decide (b.toList <:+: a.toList)

/-- Case-insensitive substring match in either direction (index.ts:264-267). -/
def prefMatches (category : String) (prefs : List String) : Bool :=
  prefs.any (fun pref =>
    strIncludes category.toLower pref.toLower ||
    strIncludes pref.toLower category.toLower)

/-- Preference sub-score (index.ts:262-269). -/
def preferenceScore (userPreferences : List String) (d : Dest) : ℚ :=
  if userPreferences.length > 0 then
    (if prefMatches d.category userPreferences then 1 else 3/10)
  else 1/2

/-- The weighted total score (index.ts:272-278). -/
def scoreOf (openDestinations : List Dest) (userPreferences : List String)
    (d : Dest) : ℚ :=
  ratingScore d * (30/100) +
  distanceScore openDestinations d * (25/100) +
  timeScore openDestinations d * (20/100) +
  preferenceScore userPreferences d * (15/100) +
  popularityScore d * (10/100)

/-- `scoredDestinations` (index.ts:250-281). -/
def scoredOf (openDestinations : List Dest) (userPreferences : List String) :
    List Scored :=
  openDestinations.map (fun d => ⟨d, scoreOf openDestinations userPreferences d⟩)

/-! ## Stable sort by descending score (index.ts:284)

`Array.prototype.sort` is stable (ECMA-262); the comparator
`(a, b) => b.score - a.score` orders by descending score.  The sort is
modelled by a stable insertion sort parametrised by a key. -/

/-- Stable descending insertion: `x` goes in front of the first element
whose key is not larger, so earlier input elements precede equal-key later
ones. -/
def insertD (key : α → ℚ) (x : α) : List α → List α
  | [] => [x]
  | t :: ts => if key t ≤ key x then x :: t :: ts else t :: insertD key x ts

/-- Stable sort by descending key. -/
def sortDesc (key : α → ℚ) : List α → List α
  | [] => []
  | x :: xs => insertD key x (sortDesc key xs)

/-! ## GreedyScheduler (index.ts:286-317) -/

/-- Leg time of a scored destination. -/
def leg (s : Scored) : ℚ := destLeg s.dest

/-- Return time used inside the greedy acceptance test (index.ts:302-304):
`destination.distanceToSource ? (distanceToSource / 40) * 60
 : destination.travelTimeFromSource`. -/
def greedyReturnTime (s : Scored) : ℚ :=
  match s.dest.distanceToSource with
  | some dts => if dts ≠ 0 then dts / 40 * 60 else s.dest.travelTimeFromSource
  | none => s.dest.travelTimeFromSource

/-- The greedy acceptance test's return time as the specification words it
(spec §4.3 step 3): `(candidate.distanceToSource / 40) * 60`, falling back
to `(candidate.distanceFromSource / 40) * 60` when `distanceToSource` is
unavailable.  Stated from the spec only, for comparison with
`greedyReturnTime`. -/
def specGreedyReturnTime (s : Scored) : ℚ :=
  match s.dest.distanceToSource with
  | some dts => if dts ≠ 0 then dts / 40 * 60 else s.dest.distanceFromSource / 40 * 60
  | none => s.dest.distanceFromSource / 40 * 60

/-- State of the greedy selection loop (index.ts:286-288). -/
structure GreedyState where
  route : List Scored
  remaining : ℚ
  skipped : List Skipped
  deriving DecidableEq

/-- A rejected destination as pushed by the loop (index.ts:312-315). -/
def mkSkip (s : Scored) : Skipped := ⟨s.dest, some s.score, "Insufficient time"⟩

/-- `optimizedRoute.reduce((sum, d) => sum + d.visitTime + d.travelTimeFromSource, 0)`
(index.ts:298). -/
def routeLegFold (route : List Scored) : ℚ :=
  route.foldl (fun sum d => sum + d.dest.visitTime + d.dest.travelTimeFromSource) 0

/-- The greedy selection loop, translated statement by statement
(index.ts:291-317). -/
def greedyGo (availableMinutes : ℚ) (st : GreedyState) :
    List Scored → GreedyState
  | [] => st
  | destination :: rest =>
    let timeRequired := destination.dest.visitTime + destination.dest.travelTimeFromSource
    let totalTripTime :=
      if st.route.length > 0 then routeLegFold st.route + timeRequired
      else timeRequired
    let returnTime := greedyReturnTime destination
    let completeTripTime := totalTripTime + returnTime
    if completeTripTime ≤ availableMinutes then
      greedyGo availableMinutes
        ⟨st.route ++ [destination], availableMinutes - completeTripTime, st.skipped⟩ rest
    else
      greedyGo availableMinutes
        ⟨st.route, st.remaining, st.skipped ++ [mkSkip destination]⟩ rest

/-- The scheduler: sort by descending score, then the greedy loop
(index.ts:284-317). -/
def schedule (availableMinutes : ℚ) (dests : List Scored) : GreedyState :=
  greedyGo availableMinutes ⟨[], availableMinutes, []⟩ (sortDesc Scored.score dests)

/-- `estimatedReturnTime`, recomputed from the last accepted destination
(index.ts:319-327); its fallback is `(distanceFromSource / 40) * 60`. -/
def finalReturnTime (route : List Scored) : ℚ :=
  match route.getLast? with
  | none => 0
  | some lastDestination =>
    match lastDestination.dest.distanceToSource with
    | some dts => if dts ≠ 0 then dts / 40 * 60
                  else lastDestination.dest.distanceFromSource / 40 * 60
    | none => lastDestination.dest.distanceFromSource / 40 * 60

/-! ## The handler's response construction -/

/-- The early return when every candidate is closed or will close
(index.ts:225-244).  Note the summary key is `totalDestinations` here,
and the envelope carries an `error` and no
`startLocation`/`homeAddress`/`estimatedReturnTime`. -/
def noViableResponse (statusChecks : List Dest) (availableTime : ℚ) :
    TripResponse where
  error := some "No open destinations available at this time"
  startLocation := none
  homeAddress := none
  optimizedRoute := []
  remainingTime := availableTime * 60
  estimatedReturnTime := none
  summary :=
    { totalLocations := none
      totalDestinations := some 0
      averageRating := none
      totalDistance := none
      totalVisitTime := 0
      totalTravelTime := 0
      totalTripTime := none
      returnTime := some 0
      averageScore := none }
  skippedDestinations :=
    statusChecks.map (fun d =>
      ⟨d, none, if !d.isOpen then "Currently closed" else "Will close during visit"⟩)

/-- The handler body after the status checks are joined
(index.ts:221-358): filter to open destinations, early-return when none
remain, otherwise score, sort, run the greedy loop and build the response. -/
def optimizeTrip (startLocation : String) (homeAddress : Option String)
    (availableTime : ℚ) (userPreferences : List String)
    (statusChecks : List Dest) : TripResponse :=
  let openDestinations := statusChecks.filter (fun d => d.isOpen && d.willStayOpen)
  if openDestinations.length = 0 then
    noViableResponse statusChecks availableTime
  else
    let availableMinutes := availableTime * 60
    let scoredDestinations := scoredOf openDestinations userPreferences
    let final := schedule availableMinutes scoredDestinations
    let optimizedRoute := final.route
    let estimatedReturnTime := finalReturnTime optimizedRoute
    let totalVisitTime := optimizedRoute.foldl (fun sum d => sum + d.dest.visitTime) 0
    let totalTravelTime :=
      optimizedRoute.foldl (fun sum d => sum + d.dest.travelTimeFromSource) 0
    let actualTotalTime := totalVisitTime + totalTravelTime + estimatedReturnTime
    { error := none
      startLocation := some startLocation
      homeAddress := some (jsOrStr homeAddress startLocation)
      optimizedRoute := optimizedRoute
      remainingTime := availableMinutes - actualTotalTime
      estimatedReturnTime := some estimatedReturnTime
      summary :=
        { totalLocations := some (optimizedRoute.length : ℚ)
          totalDestinations := none
          averageRating :=
            some ((optimizedRoute.foldl (fun sum d => sum + d.dest.rating) 0) /
              (if optimizedRoute.length = 0 then 1 else (optimizedRoute.length : ℚ)))
          totalDistance :=
            some (optimizedRoute.foldl (fun sum d => sum + d.dest.distanceFromSource) 0)
          totalVisitTime := totalVisitTime
          totalTravelTime := totalTravelTime
          totalTripTime := some actualTotalTime
          returnTime := none
          averageScore :=
            some ((optimizedRoute.foldl (fun sum d => sum + d.score) 0) /
              (if optimizedRoute.length = 0 then 1 else (optimizedRoute.length : ℚ))) }
      skippedDestinations := final.skipped }

/-! ## Properties of the stable sort -/

theorem insertD_perm (key : α → ℚ) (x : α) (l : List α) :
    (insertD key x l).Perm (x :: l) := by
  induction l with
  | nil => exact List.Perm.refl _
  | cons t ts ih =>
    unfold insertD
    split
    · exact List.Perm.refl _
    · exact (ih.cons t).trans (List.Perm.swap x t ts)

theorem sortDesc_perm (key : α → ℚ) (l : List α) :
    (sortDesc key l).Perm l := by
  induction l with
  | nil => exact List.Perm.refl _
  | cons x xs ih =>
    exact (insertD_perm key x (sortDesc key xs)).trans (ih.cons x)

theorem insertD_pairwise (key : α → ℚ) (x : α) {l : List α}
    (h : l.Pairwise (fun a b => key b ≤ key a)) :
    (insertD key x l).Pairwise (fun a b => key b ≤ key a) := by
  induction l with
  | nil => simp [insertD]
  | cons t ts ih =>
    rcases List.pairwise_cons.mp h with ⟨ht, hts⟩
    unfold insertD
    split
    · rename_i hle
      refine List.pairwise_cons.mpr ⟨?_, h⟩
      intro y hy
      rcases List.mem_cons.mp hy with rfl | hy
      · exact hle
      · exact (ht y hy).trans hle
    · rename_i hlt
      refine List.pairwise_cons.mpr ⟨?_, ih hts⟩
      intro y hy
      have hy2 : y ∈ x :: ts := ((insertD_perm key x ts).mem_iff).mp hy
      rcases List.mem_cons.mp hy2 with rfl | hy2
      · exact le_of_not_le hlt
      · exact ht y hy2

theorem sortDesc_pairwise (key : α → ℚ) (l : List α) :
    (sortDesc key l).Pairwise (fun a b => key b ≤ key a) := by
  induction l with
  | nil => exact List.Pairwise.nil
  | cons x xs ih => exact insertD_pairwise key x ih

theorem sublist_insertD (key : α → ℚ) (x : α) (l : List α) :
    l.Sublist (insertD key x l) := by
  induction l with
  | nil => simp [insertD]
  | cons t ts ih =>
    unfold insertD
    split
    · exact (List.sublist_cons_self x (t :: ts))
    · exact List.cons_sublist_cons.mpr ih

theorem insertD_stable (key : α → ℚ) (x : α) {c l : List α}
    (hc : c.Sublist l) (hkey : ∀ e ∈ c, key e ≤ key x) :
    (x :: c).Sublist (insertD key x l) := by
  induction l generalizing c with
  | nil =>
    have : c = [] := List.sublist_nil.mp hc
    subst this
    simp [insertD]
  | cons t ts ih =>
    unfold insertD
    split
    · exact List.cons_sublist_cons.mpr hc
    · rename_i hlt
      rcases List.sublist_cons_iff.mp hc with hc2 | ⟨r, rfl, hr⟩
      · exact (ih hc2 hkey).cons t
      · exact absurd (hkey t (List.mem_cons_self t r)) hlt

/-- Stability of the sort: any pairwise score-descending sublist of the
input is still a sublist of the output, so equal-score elements keep
their input order and larger-score elements never move behind smaller
ones. -/
theorem stable_sublist (key : α → ℚ) {c l : List α}
    (hc : c.Sublist l) (hsorted : c.Pairwise (fun a b => key b ≤ key a)) :
    c.Sublist (sortDesc key l) := by
  induction l generalizing c with
  | nil =>
    have : c = [] := List.sublist_nil.mp hc
    subst this
    exact List.nil_sublist _
  | cons z l2 ih =>
    rcases List.sublist_cons_iff.mp hc with hc2 | ⟨r, rfl, hr⟩
    · exact (ih hc2 hsorted).trans (sublist_insertD key z (sortDesc key l2))
    · rcases List.pairwise_cons.mp hsorted with ⟨hz, hrs⟩
      exact insertD_stable key z (ih hr hrs) hz

theorem insertD_map (key : α → ℚ) (f : β → α) (x : β) (l : List β) :
    insertD key (f x) (l.map f) = (insertD (fun b => key (f b)) x l).map f := by
  induction l with
  | nil => simp [insertD]
  | cons t ts ih =>
    simp only [List.map_cons]
    unfold insertD
    split
    · rename_i h
      simp only [List.map_cons]
    · simp [ih]

/-- The sort commutes with forgetting tags, as long as the key only looks
at the untagged part. -/
theorem sortDesc_map (key : α → ℚ) (f : β → α) (l : List β) :
    sortDesc key (l.map f) = (sortDesc (fun b => key (f b)) l).map f := by
  induction l with
  | nil => rfl
  | cons x xs ih => simp [sortDesc, ih, insertD_map]

/-! ## Interleavings

`Merge l a r` says `l` is an order-preserving interleaving of `a` and `r`;
the greedy loop splits its input into accepted and rejected parts this
way, and the stable sort of `accepted ++ rejected` is again such an
interleaving. -/

inductive Merge : List α → List α → List α → Prop
  | nil : Merge [] [] []
  | left {l a r : List α} (x : α) : Merge l a r → Merge (x :: l) (x :: a) r
  | right {l a r : List α} (x : α) : Merge l a r → Merge (x :: l) a (x :: r)

theorem Merge.perm {l a r : List α} (h : Merge l a r) : l.Perm (a ++ r) := by
  induction h with
  | nil => exact List.Perm.refl _
  | left x _ ih => exact ih.cons x
  | right x _ ih =>
    exact (ih.cons x).trans (List.perm_middle).symm

theorem Merge.left_sublist {l a r : List α} (h : Merge l a r) : a.Sublist l := by
  induction h with
  | nil => exact List.nil_sublist _
  | left x _ ih => exact List.cons_sublist_cons.mpr ih
  | right x _ ih => exact ih.cons x

theorem Merge.right_sublist {l a r : List α} (h : Merge l a r) : r.Sublist l := by
  induction h with
  | nil => exact List.nil_sublist _
  | left x _ ih => exact ih.cons x
  | right x _ ih => exact List.cons_sublist_cons.mpr ih

theorem sublist_of_cons_of_not_mem {x : α} {c l : List α}
    (h : c.Sublist (x :: l)) (hx : x ∉ c) : c.Sublist l := by
  rcases List.sublist_cons_iff.mp h with h2 | ⟨r, rfl, _⟩
  · exact h2
  · exact absurd (List.mem_cons_self x r) hx

/-- A duplicate-free list that contains `a` and `r` as sublists and is a
permutation of `a ++ r` is an interleaving of them. -/
theorem merge_of_sublists {l a r : List α} (hperm : l.Perm (a ++ r))
    (ha : a.Sublist l) (hr : r.Sublist l) (hnd : l.Nodup) : Merge l a r := by
  induction l generalizing a r with
  | nil =>
    rcases List.append_eq_nil.mp (List.nil_perm.mp hperm) with ⟨rfl, rfl⟩
    exact Merge.nil
  | cons x l2 ih =>
    have hxl2 : x ∉ l2 := (List.nodup_cons.mp hnd).1
    have hnd2 : l2.Nodup := (List.nodup_cons.mp hnd).2
    have hxar : x ∈ a ++ r := hperm.mem_iff.mp (List.mem_cons_self x l2)
    rcases List.mem_append.mp hxar with hxa | hxr
    · -- x is the head of a
      match a, ha with
      | [], _ => exact absurd hxa (List.not_mem_nil x)
      | y :: a2, ha =>
        rcases List.sublist_cons_iff.mp ha with h2 | ⟨r2, heq, hr2⟩
        · exact absurd (h2.subset hxa) hxl2
        · cases heq
          have hperm2 : l2.Perm (a2 ++ r) := List.Perm.cons_inv hperm
          have hxnr : x ∉ r := by
            intro hxr
            exact hxl2 (hperm2.mem_iff.mpr (List.mem_append.mpr (Or.inr hxr)))
          exact Merge.left x (ih hperm2 hr2 (sublist_of_cons_of_not_mem hr hxnr) hnd2)
    · -- x is the head of r
      have hxna : x ∉ a := by
        intro hxa
        -- then x would occur twice in a ++ r but only once in x :: l2
        have h1 : x ∈ a ++ r := List.mem_append.mpr (Or.inl hxa)
        have hnd3 : (a ++ r).Nodup := hperm.nodup_iff.mp hnd
        have : x ∉ r := fun hw => (List.nodup_append.mp hnd3).2.2 hxa hw
        exact this hxr
      match r, hr with
      | [], _ => exact absurd hxr (List.not_mem_nil x)
      | y :: r2, hr =>
        rcases List.sublist_cons_iff.mp hr with h2 | ⟨rr2, heq, hrr2⟩
        · exact absurd (h2.subset hxr) hxl2
        · cases heq
          have hperm2 : l2.Perm (a ++ r2) := by
            have : (x :: l2).Perm (x :: (a ++ r2)) :=
              hperm.trans (List.perm_middle)
            exact List.Perm.cons_inv this
          exact Merge.right x (ih hperm2 (sublist_of_cons_of_not_mem ha hxna) hrr2 hnd2)

/-! ## A recursion-friendly view of the greedy loop -/

/-- Sum of leg times, under a projection to `Scored`. -/
def legSumK (key : α → Scored) : List α → ℚ
  | [] => 0
  | x :: xs => leg (key x) + legSumK key xs

/-- The greedy loop as a tail-free recursion: given the accumulated leg
time of the already accepted part, split the remaining input into the
accepted and the rejected elements, in order. -/
def greedyR (key : α → Scored) (T : ℚ) (acc : ℚ) : List α → List α × List α
  | [] => ([], [])
  | s :: rest =>
    if acc + leg (key s) + greedyReturnTime (key s) ≤ T then
      let p := greedyR key T (acc + leg (key s)) rest
      (s :: p.1, p.2)
    else
      let p := greedyR key T acc rest
      (p.1, s :: p.2)

theorem legSumK_append (key : α → Scored) (l₁ l₂ : List α) :
    legSumK key (l₁ ++ l₂) = legSumK key l₁ + legSumK key l₂ := by
  induction l₁ with
  | nil => simp [legSumK]
  | cons x xs ih => simp [legSumK, ih, add_assoc]

theorem legSumK_map (key : α → Scored) (f : β → α) (l : List β) :
    legSumK key (l.map f) = legSumK (fun b => key (f b)) l := by
  induction l with
  | nil => rfl
  | cons x xs ih => simp [legSumK, ih]

theorem legSumK_nonneg (key : α → Scored) {l : List α}
    (h : ∀ x ∈ l, 0 ≤ leg (key x)) : 0 ≤ legSumK key l := by
  induction l with
  | nil => simp [legSumK]
  | cons x xs ih =>
    have := h x (List.mem_cons_self x xs)
    have h2 := ih (fun y hy => h y (List.mem_cons.mpr (Or.inr hy)))
    simp only [legSumK]
    linarith

theorem legSumK_sublist_le (key : α → Scored) {c l : List α}
    (hc : c.Sublist l) (h : ∀ x ∈ l, 0 ≤ leg (key x)) :
    legSumK key c ≤ legSumK key l := by
  induction hc with
  | slnil => exact le_refl _
  | cons x hsub ih =>
    rename_i l₁ l₂
    have h0 := h x (List.mem_cons_self x l₂)
    have := ih (fun y hy => h y (List.mem_cons.mpr (Or.inr hy)))
    simp only [legSumK]
    linarith
  | cons₂ x hsub ih =>
    rename_i l₁ l₂
    have := ih (fun y hy => h y (List.mem_cons.mpr (Or.inr hy)))
    simp only [legSumK]
    linarith

/-- `routeLegFold` really computes the leg sum. -/
theorem routeLegFold_eq (route : List Scored) :
    routeLegFold route = legSumK id route := by
  have general : ∀ (l : List Scored) (c : ℚ),
      l.foldl (fun sum d => sum + d.dest.visitTime + d.dest.travelTimeFromSource) c
        = c + legSumK id l := by
    intro l
    induction l with
    | nil => intro c; simp [legSumK]
    | cons x xs ih =>
      intro c
      simp only [List.foldl_cons, legSumK, ih]
      simp [leg, destLeg, id]
      ring
  simpa [routeLegFold] using general route 0

/-- The statement-by-statement loop equals the recursion `greedyR`:
the route is the accepted part appended to the incoming route, and the
skipped list is the rejected part (tagged `"Insufficient time"`)
appended to the incoming skipped list. -/
theorem greedyGo_eq_greedyR (T : ℚ) (L : List Scored) :
    ∀ (P : List Scored) (rem : ℚ) (K : List Skipped),
      (greedyGo T ⟨P, rem, K⟩ L).route = P ++ (greedyR id T (legSumK id P) L).1 ∧
      (greedyGo T ⟨P, rem, K⟩ L).skipped
        = K ++ ((greedyR id T (legSumK id P) L).2).map mkSkip := by
  induction L with
  | nil => intro P rem K; simp [greedyGo, greedyR]
  | cons s rest ih =>
    intro P rem K
    have hTrip :
        (if P.length > 0
          then routeLegFold P + (s.dest.visitTime + s.dest.travelTimeFromSource)
          else (s.dest.visitTime + s.dest.travelTimeFromSource))
        = legSumK id P + leg s := by
      cases P with
      | nil => simp [routeLegFold_eq, legSumK, leg, destLeg]
      | cons p ps => simp [routeLegFold_eq, leg, destLeg]
    by_cases hacc : legSumK id P + leg s + greedyReturnTime s ≤ T
    · have hgo :
          greedyGo T ⟨P, rem, K⟩ (s :: rest)
            = greedyGo T ⟨P ++ [s],
                T - (legSumK id P + leg s + greedyReturnTime s), K⟩ rest := by
        simp only [greedyGo, hTrip]
        rw [if_pos (by linarith)]
      have hR :
          greedyR id T (legSumK id P) (s :: rest)
            = ((s : Scored) :: (greedyR id T (legSumK id P + leg s) rest).1,
               (greedyR id T (legSumK id P + leg s) rest).2) := by
        simp only [greedyR, id]
        rw [if_pos hacc]
      rcases ih (P ++ [s]) (T - (legSumK id P + leg s + greedyReturnTime s)) K
        with ⟨ih1, ih2⟩
      constructor
      · rw [hgo, ih1, hR]
        simp [legSumK_append, legSumK, add_assoc]
      · rw [hgo, ih2, hR]
        simp [legSumK_append, legSumK, add_assoc]
    · have hgo :
          greedyGo T ⟨P, rem, K⟩ (s :: rest)
            = greedyGo T ⟨P, rem, K ++ [mkSkip s]⟩ rest := by
        simp only [greedyGo, hTrip]
        rw [if_neg (by intro h; exact hacc (by linarith))]
      have hR :
          greedyR id T (legSumK id P) (s :: rest)
            = ((greedyR id T (legSumK id P) rest).1,
               s :: (greedyR id T (legSumK id P) rest).2) := by
        simp only [greedyR, id]
        rw [if_neg hacc]
      rcases ih P rem (K ++ [mkSkip s]) with ⟨ih1, ih2⟩
      constructor
      · rw [hgo, ih1, hR]
      · rw [hgo, ih2, hR]
        simp

/-- Membership-level decomposition of the scheduler: every input element
lands in the accepted or the rejected part. -/
theorem greedyR_merge (key : α → Scored) (T : ℚ) (acc : ℚ) (L : List α) :
    Merge L (greedyR key T acc L).1 (greedyR key T acc L).2 := by
  induction L generalizing acc with
  | nil => exact Merge.nil
  | cons s rest ih =>
    simp only [greedyR]
    split
    · exact Merge.left s (ih _)
    · exact Merge.right s (ih _)

/-- Acceptance facts of a greedy run: when the `k`-th element of the
accepted part was accepted, the accumulated time was the leg sum of the
earlier accepted elements, and the acceptance test held. -/
theorem greedyR_accept_facts (key : α → Scored) (T : ℚ) :
    ∀ (L : List α) (acc : ℚ) (k : ℕ) (a : α) (tl : List α),
      (greedyR key T acc L).1.drop k = a :: tl →
      acc + legSumK key ((greedyR key T acc L).1.take k)
        + leg (key a) + greedyReturnTime (key a) ≤ T := by
  intro L
  induction L with
  | nil => intro acc k a tl h; simp [greedyR] at h
  | cons s rest ih =>
    intro acc k a tl h
    by_cases hacc : acc + leg (key s) + greedyReturnTime (key s) ≤ T
    · have hR : (greedyR key T acc (s :: rest)).1
          = s :: (greedyR key T (acc + leg (key s)) rest).1 := by
        simp only [greedyR]
        rw [if_pos hacc]
      rw [hR] at h ⊢
      cases k with
      | zero =>
        simp only [List.drop_zero] at h
        cases h
        simp only [List.take_zero, legSumK]
        linarith
      | succ k =>
        simp only [List.drop_succ_cons] at h
        have := ih (acc + leg (key s)) k a tl h
        simp only [List.take_succ_cons, legSumK]
        linarith
    · have hR : (greedyR key T acc (s :: rest)).1
          = (greedyR key T acc rest).1 := by
        simp only [greedyR]
        rw [if_neg hacc]
      rw [hR] at h ⊢
      exact ih acc k a tl h

/-- Rejection facts of a greedy run on a tag-increasing input: a rejected
element `r` failed the acceptance test against the leg sum of exactly
those finally-accepted elements whose tag precedes `r`'s tag. -/
theorem greedyR_reject_facts (T : ℚ) :
    ∀ (st At₀ : List (ℕ × Scored)) (acc : ℚ),
      acc = legSumK Prod.snd At₀ →
      (∀ x ∈ At₀, ∀ y ∈ st, x.1 < y.1) →
      st.Pairwise (fun x y => x.1 < y.1) →
      ∀ r ∈ (greedyR Prod.snd T acc st).2,
        T < legSumK Prod.snd
              ((At₀ ++ (greedyR Prod.snd T acc st).1).filter
                (fun a => decide (a.1 < r.1)))
            + leg r.2 + greedyReturnTime r.2 := by
  intro st
  induction st with
  | nil => intro At₀ acc _ _ _ r hr; simp [greedyR] at hr
  | cons s rest ih =>
    intro At₀ acc hAcc hTags hPair r hr
    have hhead : ∀ y ∈ rest, s.1 < y.1 := (List.pairwise_cons.mp hPair).1
    have hrest : rest.Pairwise (fun x y => x.1 < y.1) := (List.pairwise_cons.mp hPair).2
    by_cases hacc : acc + leg s.2 + greedyReturnTime s.2 ≤ T
    · have hR1 : (greedyR Prod.snd T acc (s :: rest)).1
          = s :: (greedyR Prod.snd T (acc + leg s.2) rest).1 := by
        simp only [greedyR]; rw [if_pos hacc]
      have hR2 : (greedyR Prod.snd T acc (s :: rest)).2
          = (greedyR Prod.snd T (acc + leg s.2) rest).2 := by
        simp only [greedyR]; rw [if_pos hacc]
      rw [hR2] at hr
      have hAcc2 : acc + leg s.2 = legSumK Prod.snd (At₀ ++ [s]) := by
        simp [legSumK_append, legSumK, hAcc]
      have hTags2 : ∀ x ∈ At₀ ++ [s], ∀ y ∈ rest, x.1 < y.1 := by
        intro x hx y hy
        rcases List.mem_append.mp hx with hx | hx
        · exact hTags x hx y (List.mem_cons.mpr (Or.inr hy))
        · rcases List.mem_singleton.mp hx with rfl
          exact hhead y hy
      have := ih (At₀ ++ [s]) (acc + leg s.2) hAcc2 hTags2 hrest r hr
      rw [hR1]
      rw [List.append_assoc] at this
      simpa using this
    · have hR1 : (greedyR Prod.snd T acc (s :: rest)).1
          = (greedyR Prod.snd T acc rest).1 := by
        simp only [greedyR]; rw [if_neg hacc]
      have hR2 : (greedyR Prod.snd T acc (s :: rest)).2
          = s :: (greedyR Prod.snd T acc rest).2 := by
        simp only [greedyR]; rw [if_neg hacc]
      rw [hR2] at hr
      rcases List.mem_cons.mp hr with rfl | hr
      · -- the rejected element is s itself
        rw [hR1]
        have hAt : At₀.filter (fun a => decide (a.1 < r.1)) = At₀ :=
          List.filter_eq_self.mpr (fun a ha => by
            simpa using hTags a ha r (List.mem_cons_self r rest))
        have hAf : (greedyR Prod.snd T acc rest).1.filter
            (fun a => decide (a.1 < r.1)) = [] := by
          refine List.filter_eq_nil_iff.mpr (fun a ha => ?_)
          have haRest : a ∈ rest :=
            (greedyR_merge Prod.snd T acc rest).left_sublist.subset ha
          have := hhead a haRest
          simp only [decide_eq_true_eq]
          omega
        rw [List.filter_append, hAt, hAf, List.append_nil]
        rw [← hAcc]
        exact lt_of_not_le hacc
      · have hTags2 : ∀ x ∈ At₀, ∀ y ∈ rest, x.1 < y.1 := by
          intro x hx y hy
          exact hTags x hx y (List.mem_cons.mpr (Or.inr hy))
        have := ih At₀ acc hAcc hTags2 hrest r hr
        rw [hR1]
        exact this

/-! ## Position tags -/

/-- Tag the elements of a list with consecutive positions from `n`. -/
def tagFrom (n : ℕ) : List α → List (ℕ × α)
  | [] => []
  | x :: xs => (n, x) :: tagFrom (n + 1) xs

theorem tagFrom_map_snd (n : ℕ) (l : List α) :
    (tagFrom n l).map Prod.snd = l := by
  induction l generalizing n with
  | nil => rfl
  | cons x xs ih => simp [tagFrom, ih]

theorem tagFrom_tag_ge {n : ℕ} {l : List α} {y : ℕ × α}
    (hy : y ∈ tagFrom n l) : n ≤ y.1 := by
  induction l generalizing n with
  | nil => simp [tagFrom] at hy
  | cons x xs ih =>
    rcases List.mem_cons.mp hy with rfl | hy
    · exact le_refl _
    · exact Nat.le_of_succ_le (ih hy)

theorem tagFrom_tags_lt (n : ℕ) (l : List α) :
    (tagFrom n l).Pairwise (fun x y => x.1 < y.1) := by
  induction l generalizing n with
  | nil => exact List.Pairwise.nil
  | cons x xs ih =>
    refine List.pairwise_cons.mpr ⟨?_, ih (n + 1)⟩
    intro y hy
    exact Nat.lt_of_succ_le (tagFrom_tag_ge hy)

theorem tagFrom_nodup (n : ℕ) (l : List α) : (tagFrom n l).Nodup :=
  (tagFrom_tags_lt n l).imp (fun h => by
    intro heq
    rw [heq] at h
    exact lt_irrefl _ h)

/-- The pairwise order of the untagged list transfers to any pair of
tagged elements whose tags are in order. -/
theorem tagFrom_rel_of_tag_lt {R : α → α → Prop} {l : List α}
    (hR : l.Pairwise R) {n : ℕ} {x y : ℕ × α}
    (hx : x ∈ tagFrom n l) (hy : y ∈ tagFrom n l) (hxy : x.1 < y.1) :
    R x.2 y.2 := by
  induction l generalizing n with
  | nil => simp [tagFrom] at hx
  | cons h t ih =>
    rcases List.pairwise_cons.mp hR with ⟨hhead, ht⟩
    rcases List.mem_cons.mp hx with rfl | hx
    · rcases List.mem_cons.mp hy with rfl | hy
      · exact absurd hxy (lt_irrefl _)
      · have : y.2 ∈ t := by
          have := List.mem_map_of_mem Prod.snd hy
          rwa [tagFrom_map_snd] at this
        exact hhead y.2 this
    · rcases List.mem_cons.mp hy with rfl | hy
      · have := tagFrom_tag_ge hx
        omega
      · exact ih ht hx hy
/-! ## Helper lemmas for the replay argument -/

/-- If `x` occurs before the unique occurrence of `y`, then `x` lies in
the part before `y`. -/
theorem mem_left_of_pair_sublist {x y : α} {C V : List α}
    (h : ([x, y]).Sublist (C ++ y :: V)) (hxy : x ≠ y) (hyV : y ∉ V) :
    x ∈ C := by
  induction C with
  | nil =>
    rcases List.sublist_cons_iff.mp h with h2 | ⟨r, heq, hr⟩
    · exact absurd (h2.subset (by simp)) hyV
    · cases heq
      exact absurd rfl hxy
  | cons c C2 ih =>
    rcases List.sublist_cons_iff.mp h with h2 | ⟨r, heq, hr⟩
    · exact List.mem_cons.mpr (Or.inr (ih h2))
    · cases heq
      exact List.mem_cons_self x C2

/-- A sublist of `p ++ s` avoiding every element of `s` is a sublist of `p`. -/
theorem sublist_left_of_not_mem_right {c p s : List α}
    (h : c.Sublist (p ++ s)) (hns : ∀ x ∈ c, x ∉ s) : c.Sublist p := by
  induction p generalizing c with
  | nil =>
    cases c with
    | nil => exact List.nil_sublist _
    | cons x c2 =>
      exact absurd (h.subset (List.mem_cons_self x c2)) (hns x (List.mem_cons_self x c2))
  | cons q p2 ih =>
    rcases List.sublist_cons_iff.mp h with h2 | ⟨r, rfl, hr⟩
    · exact (ih h2 hns).cons q
    · refine List.cons_sublist_cons.mpr (ih hr ?_)
      intro x hx
      exact hns x (List.mem_cons.mpr (Or.inr hx))

theorem take_succ_of_drop_cons {l : List α} {k : ℕ} {a : α} {tl : List α}
    (h : l.drop k = a :: tl) : l.take (k + 1) = l.take k ++ [a] := by
  induction l generalizing k with
  | nil => simp at h
  | cons x xs ih =>
    cases k with
    | zero =>
      simp only [List.drop_zero] at h
      cases h
      simp
    | succ k =>
      simp only [List.drop_succ_cons] at h
      simp [ih h]

/-! ## Replaying the greedy loop on its own output (claim C7)

If the greedy loop's accepted part `At` and rejected part `Rt` (tagged
with their input positions) are interleaved into any list `W` in which
every finally-accepted element precedes every rejected element whose
original acceptance test it contributed to, then running the loop on `W`
accepts exactly `At` (in order) and rejects exactly `Rt` (in order). -/

theorem greedy_replay (T : ℚ) (At Rt W : List (ℕ × Scored))
    (hS1 : ∀ a ∈ At, ∀ r ∈ Rt, a.1 < r.1 → ([a, r]).Sublist W)
    (hWnd : W.Nodup)
    (hdisj : At.Disjoint Rt)
    (hAtnd : At.Nodup)
    (haccf : ∀ (k : ℕ) (a : ℕ × Scored) (tl : List (ℕ × Scored)),
      At.drop k = a :: tl →
      legSumK Prod.snd (At.take k) + leg a.2 + greedyReturnTime a.2 ≤ T)
    (hrejf : ∀ r ∈ Rt,
      T < legSumK Prod.snd (At.filter (fun x => decide (x.1 < r.1)))
        + leg r.2 + greedyReturnTime r.2)
    (hleg : ∀ a ∈ At, 0 ≤ leg a.2) :
    ∀ {V At₂ Rt₂ : List (ℕ × Scored)}, Merge V At₂ Rt₂ →
      ∀ (C : List (ℕ × Scored)) (k : ℕ),
        At₂ = At.drop k →
        (∀ r ∈ Rt₂, r ∈ Rt) →
        W = C ++ V →
        (∀ x ∈ At, x ∈ C → x ∈ At.take k) →
        (greedyR Prod.snd T (legSumK Prod.snd (At.take k)) V).1 = At₂ ∧
        (greedyR Prod.snd T (legSumK Prod.snd (At.take k)) V).2 = Rt₂ := by
  intro V At₂ Rt₂ hm
  induction hm with
  | nil =>
    intro C k _ _ _ _
    exact ⟨rfl, rfl⟩
  | left x hm ih =>
    rename_i l a2 r2
    intro C k hAt2 hRt2 hWeq hC
    have hdropk : At.drop k = x :: a2 := hAt2.symm
    have haccept := haccf k x a2 hdropk
    have htake1 : At.take (k + 1) = At.take k ++ [x] := take_succ_of_drop_cons hdropk
    have hacc1 : legSumK Prod.snd (At.take (k + 1))
        = legSumK Prod.snd (At.take k) + leg x.2 := by
      rw [htake1, legSumK_append]
      simp [legSumK]
    have hdrop1 : a2 = At.drop (k + 1) := by
      have : At.drop (k + 1) = (At.drop k).drop 1 := by
        rw [List.drop_drop]
      rw [this, hdropk]
      rfl
    have hC2 : ∀ y ∈ At, y ∈ C ++ [x] → y ∈ At.take (k + 1) := by
      intro y hy hyC
      rcases List.mem_append.mp hyC with hyC | hyC
      · rw [htake1]
        exact List.mem_append.mpr (Or.inl (hC y hy hyC))
      · rcases List.mem_singleton.mp hyC with rfl
        rw [htake1]
        exact List.mem_append.mpr (Or.inr (List.mem_singleton.mpr rfl))
    have hWeq2 : W = (C ++ [x]) ++ l := by
      rw [hWeq, List.append_assoc]
      rfl
    have hxmem : x ∈ At := by
      have : x ∈ At.drop k := by rw [hdropk]; exact List.mem_cons_self x a2
      exact (List.drop_sublist k At).subset this
    rcases ih (C ++ [x]) (k + 1) hdrop1 hRt2 hWeq2 hC2 with ⟨ih1, ih2⟩
    rw [hacc1] at ih1 ih2
    constructor
    · simp only [greedyR]
      rw [if_pos haccept]
      simp only [ih1]
    · simp only [greedyR]
      rw [if_pos haccept]
      simp only [ih2]
  | right x hm ih =>
    rename_i l a2 r2
    intro C k hAt2 hRt2 hWeq hC
    have hxRt : x ∈ Rt := hRt2 x (List.mem_cons_self x r2)
    have hxnl : x ∉ l := by
      have : (x :: l).Nodup := by
        have : (x :: l).Sublist W := by
          rw [hWeq]
          exact List.sublist_append_right C (x :: l)
        exact this.nodup hWnd
      exact (List.nodup_cons.mp this).1
    -- the elements accepted before x in the original run are all in C,
    -- hence already accepted in the replay
    have hfilter : (At.filter (fun y => decide (y.1 < x.1))).Sublist (At.take k) := by
      have hsubAt : (At.filter (fun y => decide (y.1 < x.1))).Sublist At :=
        List.filter_sublist At
      have hmemtake : ∀ y ∈ At.filter (fun y => decide (y.1 < x.1)), y ∈ At.take k := by
        intro y hy
        have hyAt : y ∈ At := List.mem_of_mem_filter hy
        have hytag : y.1 < x.1 := by
          have := List.of_mem_filter hy
          simpa using this
        have hpair := hS1 y hyAt x hxRt hytag
        have hynex : y ≠ x := by
          intro heq
          exact hdisj hyAt (heq ▸ hxRt)
        rw [hWeq] at hpair
        exact hC y hyAt (mem_left_of_pair_sublist hpair hynex hxnl)
      have hdisj2 : ∀ y ∈ At.filter (fun y => decide (y.1 < x.1)), y ∉ At.drop k := by
        intro y hy hyd
        have hnd2 : (At.take k ++ At.drop k).Nodup := by
          rw [List.take_append_drop]; exact hAtnd
        exact (List.nodup_append.mp hnd2).2.2 (hmemtake y hy) hyd
      have : (At.filter (fun y => decide (y.1 < x.1))).Sublist
          (At.take k ++ At.drop k) := by
        rw [List.take_append_drop]; exact hsubAt
      exact sublist_left_of_not_mem_right this hdisj2
    have hlegtake : ∀ a ∈ At.take k, 0 ≤ leg a.2 := by
      intro a ha
      exact hleg a ((List.take_sublist k At).subset ha)
    have hle : legSumK Prod.snd (At.filter (fun y => decide (y.1 < x.1)))
        ≤ legSumK Prod.snd (At.take k) :=
      legSumK_sublist_le Prod.snd hfilter hlegtake
    have hreject : ¬(legSumK Prod.snd (At.take k) + leg x.2 + greedyReturnTime x.2 ≤ T) := by
      have := hrejf x hxRt
      intro hcon
      linarith
    have hC2 : ∀ y ∈ At, y ∈ C ++ [x] → y ∈ At.take k := by
      intro y hy hyC
      rcases List.mem_append.mp hyC with hyC | hyC
      · exact hC y hy hyC
      · rcases List.mem_singleton.mp hyC with rfl
        exact absurd hxRt (hdisj hy)
    have hWeq2 : W = (C ++ [x]) ++ l := by
      rw [hWeq, List.append_assoc]
      rfl
    have hRt2b : ∀ r ∈ r2, r ∈ Rt := by
      intro r hr
      exact hRt2 r (List.mem_cons.mpr (Or.inr hr))
    rcases ih (C ++ [x]) k hAt2 hRt2b hWeq2 hC2 with ⟨ih1, ih2⟩
    constructor
    · simp only [greedyR]
      rw [if_neg hreject]
      exact ih1
    · simp only [greedyR]
      rw [if_neg hreject]
      rw [ih2]

/-- The greedy recursion only looks at the projected value, so it
commutes with mapping. -/
theorem greedyR_map (key : α → Scored) (f : β → α) (T : ℚ) :
    ∀ (l : List β) (acc : ℚ),
      (greedyR key T acc (l.map f)).1 = ((greedyR (fun b => key (f b)) T acc l).1).map f ∧
      (greedyR key T acc (l.map f)).2 = ((greedyR (fun b => key (f b)) T acc l).2).map f := by
  intro l
  induction l with
  | nil => intro acc; exact ⟨rfl, rfl⟩
  | cons s rest ih =>
    intro acc
    simp only [List.map_cons, greedyR]
    by_cases hacc : acc + leg (key (f s)) + greedyReturnTime (key (f s)) ≤ T
    · rw [if_pos hacc, if_pos hacc]
      rcases ih (acc + leg (key (f s))) with ⟨ih1, ih2⟩
      exact ⟨by simp [ih1], by simp [ih2]⟩
    · rw [if_neg hacc, if_neg hacc]
      rcases ih acc with ⟨ih1, ih2⟩
      exact ⟨by simp [ih1], by simp [ih2]⟩

theorem tagFrom_pairwise {R : α → α → Prop} {l : List α} (hR : l.Pairwise R)
    (n : ℕ) : (tagFrom n l).Pairwise (fun x y => R x.2 y.2) := by
  induction l generalizing n with
  | nil => exact List.Pairwise.nil
  | cons x xs ih =>
    rcases List.pairwise_cons.mp hR with ⟨hhead, ht⟩
    refine List.pairwise_cons.mpr ⟨?_, ih ht (n + 1)⟩
    intro y hy
    have : y.2 ∈ xs := by
      have := List.mem_map_of_mem Prod.snd hy
      rwa [tagFrom_map_snd] at this
    exact hhead y.2 this

/-- Re-feed a skipped destination to the scheduler (its score was kept in
the skipped entry). -/
def skippedToScored (k : Skipped) : Scored := ⟨k.dest, k.score.getD 0⟩

theorem schedule_route_eq (T : ℚ) (dests : List Scored) :
    (schedule T dests).route
      = (greedyR id T 0 (sortDesc Scored.score dests)).1 ∧
    (schedule T dests).skipped
      = ((greedyR id T 0 (sortDesc Scored.score dests)).2).map mkSkip := by
  have h := greedyGo_eq_greedyR T (sortDesc Scored.score dests) [] T []
  simpa [schedule, legSumK] using h

/-- Idempotence of the scheduler: running it again on the accepted part
followed by the rejected part reproduces exactly the same route.  The
stable sort puts every accepted element in front of each rejected element
it out-scored or tied with in the original sorted order, so every
original decision is replayed identically. -/
theorem schedule_idempotent (T : ℚ) (dests : List Scored)
    (hleg : ∀ s ∈ dests, 0 ≤ leg s) :
    (schedule T ((schedule T dests).route
        ++ ((schedule T dests).skipped.map skippedToScored))).route
      = (schedule T dests).route := by
  classical
  rcases schedule_route_eq T dests with ⟨hroute, hskip⟩
  set S := sortDesc Scored.score dests with hS
  -- the tagged original run
  set St := tagFrom 0 S with hSt
  set At := (greedyR Prod.snd T 0 St).1 with hAt
  set Rt := (greedyR Prod.snd T 0 St).2 with hRt
  have hmapS : St.map Prod.snd = S := tagFrom_map_snd 0 S
  have hmap := greedyR_map id Prod.snd T St 0
  have hkey : (greedyR (fun b : ℕ × Scored => id b.2) T 0 St) = greedyR Prod.snd T 0 St := rfl
  have hA : (greedyR id T 0 S).1 = At.map Prod.snd := by
    rw [← hmapS]
    rw [hmap.1, hkey]
  have hR : (greedyR id T 0 S).2 = Rt.map Prod.snd := by
    rw [← hmapS]
    rw [hmap.2, hkey]
  -- the rerun input is (accepted ++ rejected), untagged
  have hback : (schedule T dests).skipped.map skippedToScored
      = (greedyR id T 0 S).2 := by
    rw [hskip, List.map_map]
    have : skippedToScored ∘ mkSkip = id := by
      funext s
      rfl
    rw [this, List.map_id]
  have hinput : (schedule T dests).route
      ++ (schedule T dests).skipped.map skippedToScored
      = (At ++ Rt).map Prod.snd := by
    rw [hroute, hback, hA, hR, List.map_append]
  -- structural facts about the tagged run
  have hmerge : Merge St At Rt := greedyR_merge Prod.snd T 0 St
  have hStnd : St.Nodup := tagFrom_nodup 0 S
  have hAtSt : At.Sublist St := hmerge.left_sublist
  have hRtSt : Rt.Sublist St := hmerge.right_sublist
  have hARperm : (At ++ Rt).Perm St := hmerge.perm.symm
  have hARnd : (At ++ Rt).Nodup := hARperm.nodup_iff.mpr hStnd
  have hAtnd : At.Nodup := hAtSt.nodup hStnd
  have hdisj : At.Disjoint Rt := (List.nodup_append.mp hARnd).2.2
  -- descending score order along the tagged input
  have hSpair : S.Pairwise (fun a b => b.score ≤ a.score) :=
    sortDesc_pairwise Scored.score dests
  have hStpair : St.Pairwise (fun x y => y.2.score ≤ x.2.score) :=
    tagFrom_pairwise hSpair 0
  -- the stable re-sort of (At ++ Rt)
  set W := sortDesc (fun b : ℕ × Scored => Scored.score b.2) (At ++ Rt) with hW
  have hWperm : W.Perm (At ++ Rt) := sortDesc_perm _ _
  have hWnd : W.Nodup := (hWperm.trans hARperm).nodup_iff.mpr hStnd
  have hAtW : At.Sublist W := by
    refine stable_sublist _ (List.sublist_append_left At Rt) ?_
    exact (hStpair.sublist hAtSt).imp (fun h => h)
  have hRtW : Rt.Sublist W := by
    refine stable_sublist _ (List.sublist_append_right At Rt) ?_
    exact (hStpair.sublist hRtSt).imp (fun h => h)
  have hmergeW : Merge W At Rt := merge_of_sublists hWperm hAtW hRtW hWnd
  -- dominance: an accepted element with a smaller tag precedes each
  -- rejected element in the stable re-sort
  have hS1 : ∀ a ∈ At, ∀ r ∈ Rt, a.1 < r.1 → ([a, r]).Sublist W := by
    intro a ha r hr htag
    refine stable_sublist _ ?_ ?_
    · exact List.Sublist.append (List.singleton_sublist.mpr ha)
        (List.singleton_sublist.mpr hr)
    · refine List.pairwise_cons.mpr ⟨?_, by simp⟩
      intro y hy
      rcases List.mem_singleton.mp hy with rfl
      exact tagFrom_rel_of_tag_lt hSpair (hAtSt.subset ha) (hRtSt.subset hr) htag
  -- the original run's decision facts
  have haccf : ∀ (k : ℕ) (a : ℕ × Scored) (tl : List (ℕ × Scored)),
      At.drop k = a :: tl →
      legSumK Prod.snd (At.take k) + leg a.2 + greedyReturnTime a.2 ≤ T := by
    intro k a tl h
    have := greedyR_accept_facts Prod.snd T St 0 k a tl (by rw [← hAt]; exact h)
    rw [← hAt] at this
    linarith
  have hrejf : ∀ r ∈ Rt,
      T < legSumK Prod.snd (At.filter (fun x => decide (x.1 < r.1)))
        + leg r.2 + greedyReturnTime r.2 := by
    intro r hr
    have := greedyR_reject_facts T St [] 0 rfl
      (fun x hx => absurd hx (List.not_mem_nil x))
      (tagFrom_tags_lt 0 S) r (by rw [← hRt]; exact hr)
    rw [← hAt] at this
    simpa using this
  have hlegAt : ∀ a ∈ At, 0 ≤ leg a.2 := by
    intro a ha
    have haS : a.2 ∈ S := by
      have := List.mem_map_of_mem Prod.snd (hAtSt.subset ha)
      rwa [hmapS] at this
    have : a.2 ∈ dests := (sortDesc_perm Scored.score dests).subset haS
    exact hleg a.2 this
  -- replay the loop on the stable re-sort
  have hreplay := greedy_replay T At Rt W hS1 hWnd hdisj hAtnd haccf hrejf hlegAt
    hmergeW [] 0 (List.drop_zero At).symm (fun r hr => hr) rfl
    (fun x _ hx => absurd hx (List.not_mem_nil x))
  have hreplay1 : (greedyR Prod.snd T 0 W).1 = At := by
    have := hreplay.1
    simpa [legSumK] using this
  -- untag the replay
  rcases schedule_route_eq T ((schedule T dests).route
      ++ (schedule T dests).skipped.map skippedToScored) with ⟨hroute2, _⟩
  rw [hroute2, hinput, hroute]
  have hsortmap : sortDesc Scored.score ((At ++ Rt).map Prod.snd)
      = W.map Prod.snd := by
    rw [sortDesc_map Scored.score Prod.snd (At ++ Rt)]
  rw [hsortmap]
  have hmap2 := greedyR_map id Prod.snd T W 0
  have hkeyW : (greedyR (fun b : ℕ × Scored => id b.2) T 0 W)
      = greedyR Prod.snd T 0 W := rfl
  rw [hmap2.1, hkeyW, hreplay1, hA]

/-! ## Field lemmas for the success branch of the handler -/

theorem optimizeTrip_success_fields (startLocation : String)
    (homeAddress : Option String) (availableTime : ℚ)
    (userPreferences : List String) (statusChecks : List Dest)
    (hopen : statusChecks.filter (fun d => d.isOpen && d.willStayOpen) ≠ []) :
    (optimizeTrip startLocation homeAddress availableTime userPreferences statusChecks).optimizedRoute
      = (schedule (availableTime * 60)
          (scoredOf (statusChecks.filter (fun d => d.isOpen && d.willStayOpen)) userPreferences)).route ∧
    (optimizeTrip startLocation homeAddress availableTime userPreferences statusChecks).skippedDestinations
      = (schedule (availableTime * 60)
          (scoredOf (statusChecks.filter (fun d => d.isOpen && d.willStayOpen)) userPreferences)).skipped ∧
    (optimizeTrip startLocation homeAddress availableTime userPreferences statusChecks).error = none ∧
    (optimizeTrip startLocation homeAddress availableTime userPreferences statusChecks).estimatedReturnTime
      = some (finalReturnTime ((schedule (availableTime * 60)
          (scoredOf (statusChecks.filter (fun d => d.isOpen && d.willStayOpen)) userPreferences)).route)) := by
  have hne : ¬((statusChecks.filter (fun d => d.isOpen && d.willStayOpen)).length = 0) :=
    fun h => hopen (List.length_eq_zero.mp h)
  simp only [optimizeTrip, if_neg hne]
  exact ⟨trivial, trivial, trivial, trivial⟩

theorem optimizeTrip_noViable (startLocation : String)
    (homeAddress : Option String) (availableTime : ℚ)
    (userPreferences : List String) (statusChecks : List Dest)
    (hclosed : statusChecks.filter (fun d => d.isOpen && d.willStayOpen) = []) :
    optimizeTrip startLocation homeAddress availableTime userPreferences statusChecks
      = noViableResponse statusChecks availableTime := by
  simp only [optimizeTrip, hclosed]
  rfl

/-! ## Claim C7 -/

/-- Every destination the scheduler touches has a nonnegative leg time,
provided the raw candidates do. -/
theorem scoredOf_leg_nonneg {statusChecks : List Dest} {userPreferences : List String}
    (hleg : ∀ d ∈ statusChecks, 0 ≤ d.visitTime ∧ 0 ≤ d.travelTimeFromSource) :
    ∀ s ∈ scoredOf (statusChecks.filter (fun d => d.isOpen && d.willStayOpen)) userPreferences,
      0 ≤ leg s := by
  intro s hs
  rcases List.mem_map.mp hs with ⟨d, hd, rfl⟩
  have hdsc : d ∈ statusChecks := (List.filter_sublist statusChecks).subset hd
  rcases hleg d hdsc with ⟨h1, h2⟩
  simp only [leg, destLeg]
  linarith

/-- C7: re-running the scheduler (descending-score sort followed by the
greedy loop, with the same minute budget) on the union of `optimizedRoute`
and `skippedDestinations` of a successful response reproduces exactly the
same `optimizedRoute`, in the same order. -/
theorem scheduler_idempotent_on_response (startLocation : String)
    (homeAddress : Option String) (availableTime : ℚ)
    (userPreferences : List String) (statusChecks : List Dest)
    (hopen : statusChecks.filter (fun d => d.isOpen && d.willStayOpen) ≠ [])
    (hleg : ∀ d ∈ statusChecks, 0 ≤ d.visitTime ∧ 0 ≤ d.travelTimeFromSource) :
    (schedule (availableTime * 60)
      ((optimizeTrip startLocation homeAddress availableTime userPreferences statusChecks).optimizedRoute
        ++ ((optimizeTrip startLocation homeAddress availableTime userPreferences statusChecks).skippedDestinations).map skippedToScored)).route
    = (optimizeTrip startLocation homeAddress availableTime userPreferences statusChecks).optimizedRoute := by
  rcases optimizeTrip_success_fields startLocation homeAddress availableTime
    userPreferences statusChecks hopen with ⟨hroute, hskip, -, -⟩
  rw [hroute, hskip]
  exact schedule_idempotent (availableTime * 60) _ (scoredOf_leg_nonneg hleg)

/-- C7 witness: a concrete successful request on which the re-run
reproduces the route. -/
theorem scheduler_idempotent_on_response_witness :
    (schedule ((1 : ℚ) * 60)
      ((optimizeTrip "S" none 1 [] [⟨"A", "nature", 5, some 5, 10, 10, 100, none, true, true⟩]).optimizedRoute
        ++ ((optimizeTrip "S" none 1 [] [⟨"A", "nature", 5, some 5, 10, 10, 100, none, true, true⟩]).skippedDestinations).map skippedToScored)).route
    = (optimizeTrip "S" none 1 [] [⟨"A", "nature", 5, some 5, 10, 10, 100, none, true, true⟩]).optimizedRoute :=
  scheduler_idempotent_on_response "S" none 1 [] _
    (by simp) (by intro d hd; simp at hd; rw [hd]; norm_num)

/-! ## Claim C1 -/

theorem sum_map_visit_travel (A : List Scored) :
    (A.map (fun s => s.dest.visitTime)).sum
      + (A.map (fun s => s.dest.travelTimeFromSource)).sum
      = legSumK id A := by
  induction A with
  | nil => simp [legSumK]
  | cons x xs ih =>
    simp only [List.map_cons, List.sum_cons, legSumK, leg, destLeg, id]
    linarith

theorem drop_length_sub_one {l : List α} (h : l ≠ []) :
    l.drop (l.length - 1) = [l.getLast h] := by
  induction l with
  | nil => exact absurd rfl h
  | cons x xs ih =>
    cases xs with
    | nil => rfl
    | cons y ys =>
      have hne : y :: ys ≠ [] := by simp
      have hih := ih hne
      simp only [List.length_cons, Nat.add_sub_cancel] at hih ⊢
      rw [List.drop_succ_cons]
      rw [hih]
      rw [List.getLast_cons hne]

/-- At the moment the last element of the accepted part was accepted, the
acceptance test bounded the whole accumulated time plus that element's
greedy return time. -/
theorem greedyR_last_bound (key : α → Scored) (T : ℚ) (L : List α) (acc : ℚ)
    (h : (greedyR key T acc L).1 ≠ []) :
    acc + legSumK key (greedyR key T acc L).1
      + greedyReturnTime (key ((greedyR key T acc L).1.getLast h)) ≤ T := by
  set A := (greedyR key T acc L).1 with hA
  have hpos : 0 < A.length := List.length_pos.mpr h
  have hdrop : A.drop (A.length - 1) = [A.getLast h] := drop_length_sub_one h
  have hfact := greedyR_accept_facts key T L acc (A.length - 1) (A.getLast h) []
    (by rw [← hA]; exact hdrop)
  rw [← hA] at hfact
  have htake : A.take ((A.length - 1) + 1) = A.take (A.length - 1) ++ [A.getLast h] :=
    take_succ_of_drop_cons hdrop
  have hsucc : (A.length - 1) + 1 = A.length := Nat.succ_pred_eq_of_pos hpos
  rw [hsucc, List.take_length] at htake
  have hsum : legSumK key A
      = legSumK key (A.take (A.length - 1)) + leg (key (A.getLast h)) := by
    conv_lhs => rw [htake]
    rw [legSumK_append]
    simp [legSumK]
  rw [hsum]
  linarith

theorem finalReturnTime_eq_greedy {A : List Scored} (h : A ≠ []) {q : ℚ}
    (hsome : (A.getLast h).dest.distanceToSource = some q) (hq : q ≠ 0) :
    finalReturnTime A = greedyReturnTime (A.getLast h) := by
  simp [finalReturnTime, List.getLast?_eq_getLast A h, hsome, greedyReturnTime, hq]

/-- Budget bound at the scheduler level, under truthy `distanceToSource`
of the last accepted destination. -/
theorem schedule_budget (T : ℚ) (dests : List Scored) (hT : 0 ≤ T)
    (hlast : ∀ s, (schedule T dests).route.getLast? = some s →
      ∃ q, s.dest.distanceToSource = some q ∧ q ≠ 0) :
    ((schedule T dests).route.map (fun s => s.dest.visitTime)).sum
      + ((schedule T dests).route.map (fun s => s.dest.travelTimeFromSource)).sum
      + finalReturnTime (schedule T dests).route ≤ T := by
  rcases schedule_route_eq T dests with ⟨hr, -⟩
  rw [hr] at hlast ⊢
  by_cases hA : (greedyR id T 0 (sortDesc Scored.score dests)).1 = []
  · rw [hA]
    simp [finalReturnTime]
    linarith
  · obtain ⟨q, hsome, hq⟩ := hlast _ (List.getLast?_eq_getLast _ hA)
    have hfrt := finalReturnTime_eq_greedy hA hsome hq
    have hbound := greedyR_last_bound id T (sortDesc Scored.score dests) 0 hA
    have hsums := sum_map_visit_travel (greedyR id T 0 (sortDesc Scored.score dests)).1
    rw [hfrt]
    simp only [id] at hbound
    linarith

/-- C1, amended: for every request, the sum of `visitTime` plus the sum of
`travelTimeFromSource` over `optimizedRoute`, plus the reported
`estimatedReturnTime`, stays within `availableTime * 60` minutes —
provided the last accepted destination carries a truthy
`distanceToSource`.  (When that field is absent the loop's fallback
`travelTimeFromSource` and the report's fallback
`(distanceFromSource / 40) * 60` differ, and the bound can fail; see the
counterexample.) -/
theorem budget_never_exceeded (startLocation : String)
    (homeAddress : Option String) (availableTime : ℚ)
    (userPreferences : List String) (statusChecks : List Dest)
    (hT : 0 ≤ availableTime)
    (hlast : ∀ s, ((optimizeTrip startLocation homeAddress availableTime
        userPreferences statusChecks).optimizedRoute).getLast? = some s →
      ∃ q, s.dest.distanceToSource = some q ∧ q ≠ 0) :
    (((optimizeTrip startLocation homeAddress availableTime userPreferences
        statusChecks).optimizedRoute).map (fun s => s.dest.visitTime)).sum
      + (((optimizeTrip startLocation homeAddress availableTime userPreferences
        statusChecks).optimizedRoute).map (fun s => s.dest.travelTimeFromSource)).sum
      + ((optimizeTrip startLocation homeAddress availableTime userPreferences
        statusChecks).estimatedReturnTime).getD 0
      ≤ availableTime * 60 := by
  have hT60 : 0 ≤ availableTime * 60 := by linarith
  by_cases hopen : statusChecks.filter (fun d => d.isOpen && d.willStayOpen) = []
  · rw [optimizeTrip_noViable startLocation homeAddress availableTime
      userPreferences statusChecks hopen]
    simp [noViableResponse]
    linarith
  · rcases optimizeTrip_success_fields startLocation homeAddress availableTime
      userPreferences statusChecks hopen with ⟨hroute, -, -, hert⟩
    rw [hroute, hert, Option.getD_some]
    refine schedule_budget (availableTime * 60) _ hT60 ?_
    intro s hs
    exact hlast s (by rw [hroute]; exact hs)

/-- C1 witness: a concrete request whose last accepted destination has a
truthy `distanceToSource`, at which the budget bound holds. -/
theorem budget_never_exceeded_witness :
    (((optimizeTrip "S" none 1 []
        [⟨"W", "nature", 5, some 5, 10, 10, 100, some 20, true, true⟩]).optimizedRoute).map
          (fun s => s.dest.visitTime)).sum
      + (((optimizeTrip "S" none 1 []
        [⟨"W", "nature", 5, some 5, 10, 10, 100, some 20, true, true⟩]).optimizedRoute).map
          (fun s => s.dest.travelTimeFromSource)).sum
      + ((optimizeTrip "S" none 1 []
        [⟨"W", "nature", 5, some 5, 10, 10, 100, some 20, true, true⟩]).estimatedReturnTime).getD 0
      ≤ (1 : ℚ) * 60 := by
  refine budget_never_exceeded "S" none 1 [] _ (by norm_num) ?_
  intro s hs
  refine ⟨20, ?_, by norm_num⟩
  norm_num [optimizeTrip, schedule, greedyGo, sortDesc, insertD, scoredOf, scoreOf,
    noViableResponse, ratingScore, distanceScore, timeScore, preferenceScore,
    popularityScore, jsMaxList, jsOrQ, destLeg, leg, greedyReturnTime,
    finalReturnTime, routeLegFold, mkSkip] at hs
  rw [← hs]

/-- C1 counterexample: a successful itinerary whose single accepted
destination has no `distanceToSource`; the greedy test used the
`travelTimeFromSource` fallback (10 minutes) while the reported
`estimatedReturnTime` uses `(distanceFromSource / 40) * 60 = 150` minutes,
so the reported schedule exceeds the 60-minute budget. -/
theorem budget_exceeded_on_fallback :
    (optimizeTrip "S" none 1 []
        [⟨"A", "nature", 5, some 5, 10, 10, 100, none, true, true⟩]).error = none ∧
    (((optimizeTrip "S" none 1 []
        [⟨"A", "nature", 5, some 5, 10, 10, 100, none, true, true⟩]).optimizedRoute).map
          (fun s => s.dest.visitTime)).sum
      + (((optimizeTrip "S" none 1 []
        [⟨"A", "nature", 5, some 5, 10, 10, 100, none, true, true⟩]).optimizedRoute).map
          (fun s => s.dest.travelTimeFromSource)).sum
      + ((optimizeTrip "S" none 1 []
        [⟨"A", "nature", 5, some 5, 10, 10, 100, none, true, true⟩]).estimatedReturnTime).getD 0
      > (1 : ℚ) * 60 := by
  constructor
  · norm_num [optimizeTrip, noViableResponse]
  · norm_num [optimizeTrip, schedule, greedyGo, sortDesc, insertD, scoredOf, scoreOf,
      noViableResponse, ratingScore, distanceScore, timeScore, preferenceScore,
      popularityScore, jsMaxList, jsOrQ, destLeg, leg, greedyReturnTime,
      finalReturnTime, routeLegFold, mkSkip]

/-! ## Claim C5 -/

/-- C5: a destination whose status check yields `isOpen = false` or
`willStayOpen = false` never appears in `optimizedRoute`, for any request
and any status-check outcomes: every route member is open and stays open. -/
theorem route_members_open (startLocation : String) (homeAddress : Option String)
    (availableTime : ℚ) (userPreferences : List String) (statusChecks : List Dest) :
    ∀ s ∈ (optimizeTrip startLocation homeAddress availableTime userPreferences
        statusChecks).optimizedRoute,
      s.dest.isOpen = true ∧ s.dest.willStayOpen = true := by
  intro s hs
  by_cases hopen : statusChecks.filter (fun d => d.isOpen && d.willStayOpen) = []
  · rw [optimizeTrip_noViable startLocation homeAddress availableTime
      userPreferences statusChecks hopen] at hs
    simp [noViableResponse] at hs
  · rcases optimizeTrip_success_fields startLocation homeAddress availableTime
      userPreferences statusChecks hopen with ⟨hroute, -, -, -⟩
    rw [hroute] at hs
    rcases schedule_route_eq (availableTime * 60)
      (scoredOf (statusChecks.filter (fun d => d.isOpen && d.willStayOpen))
        userPreferences) with ⟨hr, -⟩
    rw [hr] at hs
    have hsub := (greedyR_merge id (availableTime * 60) 0
      (sortDesc Scored.score
        (scoredOf (statusChecks.filter (fun d => d.isOpen && d.willStayOpen))
          userPreferences))).left_sublist
    have hs2 := hsub.subset hs
    have hs3 := (sortDesc_perm Scored.score _).subset hs2
    rcases List.mem_map.mp hs3 with ⟨d, hd, rfl⟩
    have hcond := List.of_mem_filter hd
    simpa using hcond

/-- C5 witness: a concrete open destination that does appear in the route. -/
theorem route_members_open_witness :
    (Scored.mk ⟨"A", "nature", 5, some 5, 10, 10, 100, none, true, true⟩ (17/40)).dest.isOpen
        = true
      ∧ (Scored.mk ⟨"A", "nature", 5, some 5, 10, 10, 100, none, true, true⟩ (17/40)).dest.willStayOpen
        = true :=
  route_members_open "S" none 1 [] [⟨"A", "nature", 5, some 5, 10, 10, 100, none, true, true⟩]
    (Scored.mk ⟨"A", "nature", 5, some 5, 10, 10, 100, none, true, true⟩ (17/40))
    (by norm_num [optimizeTrip, schedule, greedyGo, sortDesc, insertD, scoredOf, scoreOf,
      noViableResponse, ratingScore, distanceScore, timeScore, preferenceScore,
      popularityScore, jsMaxList, jsOrQ, destLeg, leg, greedyReturnTime,
      finalReturnTime, routeLegFold, mkSkip])

/-! ## Claim C10 -/

theorem pairwise_trivial_le (l : List Skipped)
    (h : ∀ k ∈ l, k.score = none) :
    l.Pairwise (fun a b => b.score.getD 0 ≤ a.score.getD 0) := by
  induction l with
  | nil => exact List.Pairwise.nil
  | cons x xs ih =>
    refine List.pairwise_cons.mpr ⟨?_, ih (fun k hk => h k (List.mem_cons.mpr (Or.inr hk)))⟩
    intro y hy
    rw [h x (List.mem_cons_self x xs), h y (List.mem_cons.mpr (Or.inr hy))]

/-- C10: in every response, `optimizedRoute` is in non-increasing score
order, and so are the scores of `skippedDestinations` (in the success
branch these are exactly the candidates rejected for insufficient time;
in the all-closed branch they carry no score and the order is trivial). -/
theorem route_scores_descending (startLocation : String) (homeAddress : Option String)
    (availableTime : ℚ) (userPreferences : List String) (statusChecks : List Dest) :
    ((optimizeTrip startLocation homeAddress availableTime userPreferences
        statusChecks).optimizedRoute).Pairwise (fun a b => b.score ≤ a.score) ∧
    ((optimizeTrip startLocation homeAddress availableTime userPreferences
        statusChecks).skippedDestinations).Pairwise
      (fun a b => b.score.getD 0 ≤ a.score.getD 0) := by
  by_cases hopen : statusChecks.filter (fun d => d.isOpen && d.willStayOpen) = []
  · rw [optimizeTrip_noViable startLocation homeAddress availableTime
      userPreferences statusChecks hopen]
    constructor
    · exact List.Pairwise.nil
    · refine pairwise_trivial_le _ ?_
      intro k hk
      rcases List.mem_map.mp hk with ⟨d, -, rfl⟩
      rfl
  · rcases optimizeTrip_success_fields startLocation homeAddress availableTime
      userPreferences statusChecks hopen with ⟨hroute, hskip, -, -⟩
    rw [hroute, hskip]
    rcases schedule_route_eq (availableTime * 60)
      (scoredOf (statusChecks.filter (fun d => d.isOpen && d.willStayOpen))
        userPreferences) with ⟨hr, hk⟩
    rw [hr, hk]
    have hSpair := sortDesc_pairwise Scored.score
      (scoredOf (statusChecks.filter (fun d => d.isOpen && d.willStayOpen))
        userPreferences)
    have hmerge := greedyR_merge id (availableTime * 60) 0
      (sortDesc Scored.score
        (scoredOf (statusChecks.filter (fun d => d.isOpen && d.willStayOpen))
          userPreferences))
    constructor
    · exact List.Pairwise.sublist hmerge.left_sublist hSpair
    · have hRpair := List.Pairwise.sublist hmerge.right_sublist hSpair
      refine List.pairwise_map.mpr (hRpair.imp ?_)
      intro a b hab
      simpa [mkSkip] using hab

/-- C10 witness: a concrete successful response (two open candidates, one
rejected for time): both lists are in non-increasing score order. -/
theorem route_scores_descending_witness :
    ((optimizeTrip "S" none 1 []
        [⟨"A", "nature", 5, some 5, 10, 10, 100, some 10, true, true⟩,
         ⟨"B", "food", 1, some 1, 50, 50, 100, some 10, true, true⟩]).optimizedRoute).Pairwise
      (fun a b => b.score ≤ a.score) ∧
    ((optimizeTrip "S" none 1 []
        [⟨"A", "nature", 5, some 5, 10, 10, 100, some 10, true, true⟩,
         ⟨"B", "food", 1, some 1, 50, 50, 100, some 10, true, true⟩]).skippedDestinations).Pairwise
      (fun a b => b.score.getD 0 ≤ a.score.getD 0) :=
  route_scores_descending "S" none 1 []
    [⟨"A", "nature", 5, some 5, 10, 10, 100, some 10, true, true⟩,
     ⟨"B", "food", 1, some 1, 50, 50, 100, some 10, true, true⟩]

/-! ## Claim C8 -/

/-- C8: scoring and scheduling are deterministic — equal inputs produce
identical scored lists and identical responses — and the sort breaks
equal-score ties by original candidate order: any two-element
subsequence of the scored list with equal scores is still a subsequence
of the sorted list. -/
theorem scoring_deterministic_and_stable (startLocation : String)
    (homeAddress : Option String) (availableTime availableTime2 : ℚ)
    (userPreferences userPreferences2 : List String)
    (statusChecks statusChecks2 : List Dest)
    (hsc : statusChecks = statusChecks2) (hp : userPreferences = userPreferences2)
    (ht : availableTime = availableTime2) :
    scoredOf (statusChecks.filter (fun d => d.isOpen && d.willStayOpen)) userPreferences
      = scoredOf (statusChecks2.filter (fun d => d.isOpen && d.willStayOpen)) userPreferences2 ∧
    optimizeTrip startLocation homeAddress availableTime userPreferences statusChecks
      = optimizeTrip startLocation homeAddress availableTime2 userPreferences2 statusChecks2 ∧
    (∀ a b : Scored,
      ([a, b]).Sublist
        (scoredOf (statusChecks.filter (fun d => d.isOpen && d.willStayOpen)) userPreferences) →
      a.score = b.score →
      ([a, b]).Sublist
        (sortDesc Scored.score
          (scoredOf (statusChecks.filter (fun d => d.isOpen && d.willStayOpen)) userPreferences))) := by
  subst hsc hp ht
  refine ⟨rfl, rfl, ?_⟩
  intro a b hab heq
  refine stable_sublist Scored.score hab ?_
  refine List.pairwise_cons.mpr ⟨?_, by simp⟩
  intro y hy
  rcases List.mem_singleton.mp hy with rfl
  exact le_of_eq heq.symm

/-- C8 witness: concrete equal inputs with an equal-score tie kept in
input order. -/
theorem scoring_deterministic_and_stable_witness :
    scoredOf (([⟨"A", "nature", 5, some 5, 10, 10, 100, none, true, true⟩,
        ⟨"B", "nature", 5, some 5, 10, 10, 100, none, true, true⟩] :
          List Dest).filter (fun d => d.isOpen && d.willStayOpen)) []
      = scoredOf (([⟨"A", "nature", 5, some 5, 10, 10, 100, none, true, true⟩,
        ⟨"B", "nature", 5, some 5, 10, 10, 100, none, true, true⟩] :
          List Dest).filter (fun d => d.isOpen && d.willStayOpen)) [] ∧
    optimizeTrip "S" none 1 []
        [⟨"A", "nature", 5, some 5, 10, 10, 100, none, true, true⟩,
         ⟨"B", "nature", 5, some 5, 10, 10, 100, none, true, true⟩]
      = optimizeTrip "S" none 1 []
        [⟨"A", "nature", 5, some 5, 10, 10, 100, none, true, true⟩,
         ⟨"B", "nature", 5, some 5, 10, 10, 100, none, true, true⟩] ∧
    (∀ a b : Scored,
      ([a, b]).Sublist
        (scoredOf (([⟨"A", "nature", 5, some 5, 10, 10, 100, none, true, true⟩,
          ⟨"B", "nature", 5, some 5, 10, 10, 100, none, true, true⟩] :
            List Dest).filter (fun d => d.isOpen && d.willStayOpen)) []) →
      a.score = b.score →
      ([a, b]).Sublist
        (sortDesc Scored.score
          (scoredOf (([⟨"A", "nature", 5, some 5, 10, 10, 100, none, true, true⟩,
            ⟨"B", "nature", 5, some 5, 10, 10, 100, none, true, true⟩] :
              List Dest).filter (fun d => d.isOpen && d.willStayOpen)) []))) :=
  scoring_deterministic_and_stable "S" none 1 1 [] []
    [⟨"A", "nature", 5, some 5, 10, 10, 100, none, true, true⟩,
     ⟨"B", "nature", 5, some 5, 10, 10, 100, none, true, true⟩]
    [⟨"A", "nature", 5, some 5, 10, 10, 100, none, true, true⟩,
     ⟨"B", "nature", 5, some 5, 10, 10, 100, none, true, true⟩]
    rfl rfl rfl

/-! ## Claim C6 -/

theorem le_jsMaxList : ∀ (xs : List ℚ) (x : ℚ), x ∈ xs → x ≤ jsMaxList xs := by
  intro xs
  induction xs with
  | nil => intro x hx; simp at hx
  | cons y ys ih =>
    intro x hx
    cases ys with
    | nil =>
      rcases List.mem_singleton.mp hx with rfl
      exact le_refl _
    | cons z zs =>
      show x ≤ max y (jsMaxList (z :: zs))
      rcases List.mem_cons.mp hx with rfl | hx
      · exact le_max_left _ _
      · exact le_trans (ih x hx) (le_max_right _ _)

/-- C6: for an open destination of the candidate set with `rating` in
`[0,5]`, `popularity` in `[1,10]` when present, and nonnegative distances
and times, the total score is the weighted sum of the five sub-scores
with weights `0.30/0.25/0.20/0.15/0.10` summing to `1`, every sub-score
lies in `[0,1]` (degenerate zero-denominator cases scoring `1`), and the
total score lies in `[0,1]`. -/
theorem score_weighted_sum_in_unit_interval (openDestinations : List Dest)
    (userPreferences : List String) (d : Dest)
    (hd : d ∈ openDestinations)
    (hr0 : 0 ≤ d.rating) (hr5 : d.rating ≤ 5)
    (hpop : ∀ v, d.popularity = some v → 1 ≤ v ∧ v ≤ 10)
    (hdist : ∀ x ∈ openDestinations, 0 ≤ x.distanceFromSource)
    (htime : ∀ x ∈ openDestinations, 0 ≤ x.visitTime ∧ 0 ≤ x.travelTimeFromSource) :
    scoreOf openDestinations userPreferences d
      = ratingScore d * (30/100) + distanceScore openDestinations d * (25/100)
        + timeScore openDestinations d * (20/100)
        + preferenceScore userPreferences d * (15/100)
        + popularityScore d * (10/100) ∧
    ((30 : ℚ)/100) + 25/100 + 20/100 + 15/100 + 10/100 = 1 ∧
    (0 ≤ ratingScore d ∧ ratingScore d ≤ 1) ∧
    (0 ≤ distanceScore openDestinations d ∧ distanceScore openDestinations d ≤ 1) ∧
    (0 ≤ timeScore openDestinations d ∧ timeScore openDestinations d ≤ 1) ∧
    (0 ≤ preferenceScore userPreferences d ∧ preferenceScore userPreferences d ≤ 1) ∧
    (0 ≤ popularityScore d ∧ popularityScore d ≤ 1) ∧
    0 ≤ scoreOf openDestinations userPreferences d ∧
    scoreOf openDestinations userPreferences d ≤ 1 := by
  have hrating : 0 ≤ ratingScore d ∧ ratingScore d ≤ 1 := by
    constructor
    · exact div_nonneg hr0 (by norm_num)
    · rw [ratingScore, div_le_one (by norm_num)]
      exact hr5
  have hdistance : 0 ≤ distanceScore openDestinations d ∧
      distanceScore openDestinations d ≤ 1 := by
    rw [distanceScore]
    set M := jsMaxList (openDestinations.map (·.distanceFromSource)) with hM
    by_cases hMpos : M > 0
    · rw [if_pos hMpos]
      have hmem : d.distanceFromSource ∈ openDestinations.map (·.distanceFromSource) :=
        List.mem_map_of_mem _ hd
      have hle : d.distanceFromSource ≤ M := le_jsMaxList _ _ hmem
      have h0 : 0 ≤ d.distanceFromSource := hdist d hd
      constructor
      · have : d.distanceFromSource / M ≤ 1 := by
          rw [div_le_one hMpos]
          exact hle
        linarith
      · have : 0 ≤ d.distanceFromSource / M := div_nonneg h0 (le_of_lt hMpos)
        linarith
    · rw [if_neg hMpos]
      norm_num
  have htimesc : 0 ≤ timeScore openDestinations d ∧ timeScore openDestinations d ≤ 1 := by
    rw [timeScore]
    set M := jsMaxList (openDestinations.map destLeg) with hM
    by_cases hMpos : M > 0
    · rw [if_pos hMpos]
      have hmem : destLeg d ∈ openDestinations.map destLeg :=
        List.mem_map_of_mem _ hd
      have hle : destLeg d ≤ M := le_jsMaxList _ _ hmem
      have h0 : 0 ≤ destLeg d := by
        rcases htime d hd with ⟨h1, h2⟩
        rw [destLeg]
        linarith
      constructor
      · have : destLeg d / M ≤ 1 := by
          rw [div_le_one hMpos]
          exact hle
        linarith
      · have : 0 ≤ destLeg d / M := div_nonneg h0 (le_of_lt hMpos)
        linarith
    · rw [if_neg hMpos]
      norm_num
  have hpref : 0 ≤ preferenceScore userPreferences d ∧
      preferenceScore userPreferences d ≤ 1 := by
    rw [preferenceScore]
    split
    · split <;> norm_num
    · norm_num
  have hpopsc : 0 ≤ popularityScore d ∧ popularityScore d ≤ 1 := by
    rcases hcase : d.popularity with - | v
    · simp only [popularityScore, jsOrQ, hcase]
      norm_num
    · rcases hpop v hcase with ⟨h1, h10⟩
      have hne : ¬(v = 0) := by intro h; rw [h] at h1; norm_num at h1
      simp only [popularityScore, jsOrQ, hcase, if_neg hne]
      constructor
      · positivity
      · rw [div_le_one (by norm_num)]
        linarith
  refine ⟨rfl, by norm_num, hrating, hdistance, htimesc, hpref, hpopsc, ?_, ?_⟩
  · rw [scoreOf]
    have h1 := mul_nonneg hrating.1 (by norm_num : (0:ℚ) ≤ 30/100)
    have h2 := mul_nonneg hdistance.1 (by norm_num : (0:ℚ) ≤ 25/100)
    have h3 := mul_nonneg htimesc.1 (by norm_num : (0:ℚ) ≤ 20/100)
    have h4 := mul_nonneg hpref.1 (by norm_num : (0:ℚ) ≤ 15/100)
    have h5 := mul_nonneg hpopsc.1 (by norm_num : (0:ℚ) ≤ 10/100)
    linarith
  · rw [scoreOf]
    have h1 := mul_le_mul_of_nonneg_right hrating.2 (by norm_num : (0:ℚ) ≤ 30/100)
    have h2 := mul_le_mul_of_nonneg_right hdistance.2 (by norm_num : (0:ℚ) ≤ 25/100)
    have h3 := mul_le_mul_of_nonneg_right htimesc.2 (by norm_num : (0:ℚ) ≤ 20/100)
    have h4 := mul_le_mul_of_nonneg_right hpref.2 (by norm_num : (0:ℚ) ≤ 15/100)
    have h5 := mul_le_mul_of_nonneg_right hpopsc.2 (by norm_num : (0:ℚ) ≤ 10/100)
    linarith

/-- C6 witness: a concrete open destination whose score is the weighted
sum and lies in `[0,1]`, with all sub-scores in `[0,1]`. -/
theorem score_weighted_sum_in_unit_interval_witness :
    scoreOf [⟨"A", "nature", 4, some 7, 30, 15, 12, some 9, true, true⟩] ["food"]
        ⟨"A", "nature", 4, some 7, 30, 15, 12, some 9, true, true⟩
      = ratingScore ⟨"A", "nature", 4, some 7, 30, 15, 12, some 9, true, true⟩ * (30/100)
        + distanceScore [⟨"A", "nature", 4, some 7, 30, 15, 12, some 9, true, true⟩]
            ⟨"A", "nature", 4, some 7, 30, 15, 12, some 9, true, true⟩ * (25/100)
        + timeScore [⟨"A", "nature", 4, some 7, 30, 15, 12, some 9, true, true⟩]
            ⟨"A", "nature", 4, some 7, 30, 15, 12, some 9, true, true⟩ * (20/100)
        + preferenceScore ["food"]
            ⟨"A", "nature", 4, some 7, 30, 15, 12, some 9, true, true⟩ * (15/100)
        + popularityScore ⟨"A", "nature", 4, some 7, 30, 15, 12, some 9, true, true⟩ * (10/100) ∧
    ((30 : ℚ)/100) + 25/100 + 20/100 + 15/100 + 10/100 = 1 ∧
    (0 ≤ ratingScore ⟨"A", "nature", 4, some 7, 30, 15, 12, some 9, true, true⟩ ∧
      ratingScore ⟨"A", "nature", 4, some 7, 30, 15, 12, some 9, true, true⟩ ≤ 1) ∧
    (0 ≤ distanceScore [⟨"A", "nature", 4, some 7, 30, 15, 12, some 9, true, true⟩]
        ⟨"A", "nature", 4, some 7, 30, 15, 12, some 9, true, true⟩ ∧
      distanceScore [⟨"A", "nature", 4, some 7, 30, 15, 12, some 9, true, true⟩]
        ⟨"A", "nature", 4, some 7, 30, 15, 12, some 9, true, true⟩ ≤ 1) ∧
    (0 ≤ timeScore [⟨"A", "nature", 4, some 7, 30, 15, 12, some 9, true, true⟩]
        ⟨"A", "nature", 4, some 7, 30, 15, 12, some 9, true, true⟩ ∧
      timeScore [⟨"A", "nature", 4, some 7, 30, 15, 12, some 9, true, true⟩]
        ⟨"A", "nature", 4, some 7, 30, 15, 12, some 9, true, true⟩ ≤ 1) ∧
    (0 ≤ preferenceScore ["food"] ⟨"A", "nature", 4, some 7, 30, 15, 12, some 9, true, true⟩ ∧
      preferenceScore ["food"] ⟨"A", "nature", 4, some 7, 30, 15, 12, some 9, true, true⟩ ≤ 1) ∧
    (0 ≤ popularityScore ⟨"A", "nature", 4, some 7, 30, 15, 12, some 9, true, true⟩ ∧
      popularityScore ⟨"A", "nature", 4, some 7, 30, 15, 12, some 9, true, true⟩ ≤ 1) ∧
    0 ≤ scoreOf [⟨"A", "nature", 4, some 7, 30, 15, 12, some 9, true, true⟩] ["food"]
        ⟨"A", "nature", 4, some 7, 30, 15, 12, some 9, true, true⟩ ∧
    scoreOf [⟨"A", "nature", 4, some 7, 30, 15, 12, some 9, true, true⟩] ["food"]
        ⟨"A", "nature", 4, some 7, 30, 15, 12, some 9, true, true⟩ ≤ 1 :=
  score_weighted_sum_in_unit_interval
    [⟨"A", "nature", 4, some 7, 30, 15, 12, some 9, true, true⟩] ["food"]
    ⟨"A", "nature", 4, some 7, 30, 15, 12, some 9, true, true⟩
    (by simp)
    (by norm_num) (by norm_num)
    (by intro v hv; simp at hv; rw [← hv]; norm_num)
    (by intro x hx; simp at hx; rw [hx]; norm_num)
    (by intro x hx; simp at hx; rw [hx]; norm_num)

/-! ## Claim C2 -/

/-- C2, amended: in a successful response, every OPEN candidate either
appears in `optimizedRoute` or appears in `skippedDestinations` tagged
`"Insufficient time"`.  (Candidates filtered out as closed appear in
neither list — see the counterexample; they are only reported in the
all-closed early return.) -/
theorem open_candidates_partitioned (startLocation : String)
    (homeAddress : Option String) (availableTime : ℚ)
    (userPreferences : List String) (statusChecks : List Dest)
    (hopen : statusChecks.filter (fun d => d.isOpen && d.willStayOpen) ≠ []) :
    ∀ d ∈ statusChecks, (d.isOpen && d.willStayOpen) = true →
      (∃ s ∈ (optimizeTrip startLocation homeAddress availableTime userPreferences
          statusChecks).optimizedRoute, s.dest = d) ∨
      (∃ k ∈ (optimizeTrip startLocation homeAddress availableTime userPreferences
          statusChecks).skippedDestinations,
        k.dest = d ∧ k.skipReason = "Insufficient time") := by
  intro d hd hopen2
  rcases optimizeTrip_success_fields startLocation homeAddress availableTime
    userPreferences statusChecks hopen with ⟨hroute, hskip, -, -⟩
  rw [hroute, hskip]
  rcases schedule_route_eq (availableTime * 60)
    (scoredOf (statusChecks.filter (fun d => d.isOpen && d.willStayOpen))
      userPreferences) with ⟨hr, hk⟩
  rw [hr, hk]
  have hdf : d ∈ statusChecks.filter (fun d => d.isOpen && d.willStayOpen) :=
    List.mem_filter.mpr ⟨hd, hopen2⟩
  have hdscored :
      (⟨d, scoreOf (statusChecks.filter (fun d => d.isOpen && d.willStayOpen))
        userPreferences d⟩ : Scored)
      ∈ scoredOf (statusChecks.filter (fun d => d.isOpen && d.willStayOpen))
          userPreferences :=
    List.mem_map_of_mem _ hdf
  have hdsorted := (sortDesc_perm Scored.score _).symm.subset hdscored
  have hmerge := greedyR_merge id (availableTime * 60) 0
    (sortDesc Scored.score
      (scoredOf (statusChecks.filter (fun d => d.isOpen && d.willStayOpen))
        userPreferences))
  have hsplit := hmerge.perm.subset hdsorted
  rcases List.mem_append.mp hsplit with hin | hin
  · exact Or.inl ⟨_, hin, rfl⟩
  · exact Or.inr ⟨mkSkip _, List.mem_map_of_mem mkSkip hin, rfl, rfl⟩

/-- C2 witness: with one open and one closed candidate and ample budget,
the open candidate lands in the route. -/
theorem open_candidates_partitioned_witness :
    (∃ s ∈ (optimizeTrip "S" none 1 []
        [⟨"C", "food", 4, some 5, 10, 10, 5, some 5, false, false⟩,
         ⟨"O", "nature", 5, some 5, 10, 10, 100, some 10, true, true⟩]).optimizedRoute,
      s.dest = ⟨"O", "nature", 5, some 5, 10, 10, 100, some 10, true, true⟩) ∨
    (∃ k ∈ (optimizeTrip "S" none 1 []
        [⟨"C", "food", 4, some 5, 10, 10, 5, some 5, false, false⟩,
         ⟨"O", "nature", 5, some 5, 10, 10, 100, some 10, true, true⟩]).skippedDestinations,
      k.dest = ⟨"O", "nature", 5, some 5, 10, 10, 100, some 10, true, true⟩
        ∧ k.skipReason = "Insufficient time") :=
  open_candidates_partitioned "S" none 1 []
    [⟨"C", "food", 4, some 5, 10, 10, 5, some 5, false, false⟩,
     ⟨"O", "nature", 5, some 5, 10, 10, 100, some 10, true, true⟩]
    (by simp)
    ⟨"O", "nature", 5, some 5, 10, 10, 100, some 10, true, true⟩
    (by simp) (by simp)

/-- C2 counterexample: a successful response in which the closed
candidate `C` appears neither in `optimizedRoute` nor in
`skippedDestinations` — so not every oracle candidate left out of the
route is reported as skipped. -/
theorem closed_candidate_dropped_silently :
    (optimizeTrip "S" none 1 []
        [⟨"C", "food", 4, some 5, 10, 10, 5, some 5, false, false⟩,
         ⟨"O", "nature", 5, some 5, 10, 10, 100, some 10, true, true⟩]).error = none ∧
    (∀ s ∈ (optimizeTrip "S" none 1 []
        [⟨"C", "food", 4, some 5, 10, 10, 5, some 5, false, false⟩,
         ⟨"O", "nature", 5, some 5, 10, 10, 100, some 10, true, true⟩]).optimizedRoute,
      s.dest ≠ ⟨"C", "food", 4, some 5, 10, 10, 5, some 5, false, false⟩) ∧
    (∀ k ∈ (optimizeTrip "S" none 1 []
        [⟨"C", "food", 4, some 5, 10, 10, 5, some 5, false, false⟩,
         ⟨"O", "nature", 5, some 5, 10, 10, 100, some 10, true, true⟩]).skippedDestinations,
      k.dest ≠ ⟨"C", "food", 4, some 5, 10, 10, 5, some 5, false, false⟩) := by
  norm_num [optimizeTrip, schedule, greedyGo, sortDesc, insertD, scoredOf, scoreOf,
    noViableResponse, ratingScore, distanceScore, timeScore, preferenceScore,
    popularityScore, jsMaxList, jsOrQ, destLeg, leg, greedyReturnTime,
    finalReturnTime, routeLegFold, mkSkip]

/-! ## Claim C3 -/

/-- C3, amended: the return time used in the greedy acceptance test is
`(distanceToSource / 40) * 60` when `distanceToSource` is truthy, and
otherwise falls back to the candidate's `travelTimeFromSource` — not to
`(distanceFromSource / 40) * 60` as the specification words it. -/
theorem greedy_return_time_formula (s : Scored) :
    (∀ q : ℚ, s.dest.distanceToSource = some q → q ≠ 0 →
      greedyReturnTime s = q / 40 * 60) ∧
    (s.dest.distanceToSource = none →
      greedyReturnTime s = s.dest.travelTimeFromSource) ∧
    (s.dest.distanceToSource = some 0 →
      greedyReturnTime s = s.dest.travelTimeFromSource) := by
  refine ⟨?_, ?_, ?_⟩
  · intro q hq hne
    simp [greedyReturnTime, hq, hne]
  · intro hq
    simp [greedyReturnTime, hq]
  · intro hq
    simp [greedyReturnTime, hq]

/-- C3 witness: with `distanceToSource = 20` km the greedy return time is
`(20 / 40) * 60` minutes. -/
theorem greedy_return_time_formula_witness :
    greedyReturnTime ⟨⟨"W", "nature", 5, some 5, 10, 10, 100, some 20, true, true⟩, 0⟩
      = 20 / 40 * 60 :=
  (greedy_return_time_formula
    ⟨⟨"W", "nature", 5, some 5, 10, 10, 100, some 20, true, true⟩, 0⟩).1
    20 rfl (by norm_num)

/-- C3 counterexample: a candidate without `distanceToSource`
(`distanceFromSource = 40` km, `travelTimeFromSource = 30` min): the code
adds 30 minutes where the claim's fallback `(40 / 40) * 60` is 60. -/
theorem greedy_return_time_fallback_differs :
    greedyReturnTime
        ⟨⟨"A", "nature", 5, some 5, 10, 30, 40, none, true, true⟩, 0⟩ = 30 ∧
    specGreedyReturnTime
        ⟨⟨"A", "nature", 5, some 5, 10, 30, 40, none, true, true⟩, 0⟩ = 60 ∧
    greedyReturnTime
        ⟨⟨"A", "nature", 5, some 5, 10, 30, 40, none, true, true⟩, 0⟩
      ≠ specGreedyReturnTime
        ⟨⟨"A", "nature", 5, some 5, 10, 30, 40, none, true, true⟩, 0⟩ := by
  norm_num [greedyReturnTime, specGreedyReturnTime]

/-! ## Claim C4 -/

/-- C4, amended: when every candidate is closed or will close during its
visit, the handler returns the early no-viable response: empty
`optimizedRoute`, every candidate in `skippedDestinations` with reason
`"Currently closed"` when `isOpen` is false and `"Will close during
visit"` otherwise, and the count field of its summary is
`totalDestinations = 0` — the summary carries no `totalLocations` key,
and the envelope carries an `error` and omits
`startLocation`/`homeAddress`/`estimatedReturnTime` (it is not the
success envelope).  Neither the scoring computation nor the greedy loop
contributes: the response equals `noViableResponse`, defined from the
status checks alone. -/
theorem no_viable_response_shape (startLocation : String)
    (homeAddress : Option String) (availableTime : ℚ)
    (userPreferences : List String) (statusChecks : List Dest)
    (hclosed : ∀ d ∈ statusChecks, (d.isOpen && d.willStayOpen) = false) :
    optimizeTrip startLocation homeAddress availableTime userPreferences statusChecks
      = noViableResponse statusChecks availableTime ∧
    (noViableResponse statusChecks availableTime).optimizedRoute = [] ∧
    (noViableResponse statusChecks availableTime).summary.totalDestinations = some 0 ∧
    (noViableResponse statusChecks availableTime).summary.totalLocations = none ∧
    (noViableResponse statusChecks availableTime).error
      = some "No open destinations available at this time" ∧
    (noViableResponse statusChecks availableTime).estimatedReturnTime = none ∧
    (noViableResponse statusChecks availableTime).startLocation = none ∧
    (noViableResponse statusChecks availableTime).skippedDestinations
      = statusChecks.map (fun d =>
          ⟨d, none, if !d.isOpen then "Currently closed" else "Will close during visit"⟩) := by
  have hfilter : statusChecks.filter (fun d => d.isOpen && d.willStayOpen) = [] := by
    refine List.filter_eq_nil_iff.mpr ?_
    intro d hd
    rw [hclosed d hd]
    simp
  exact ⟨optimizeTrip_noViable startLocation homeAddress availableTime
    userPreferences statusChecks hfilter, rfl, rfl, rfl, rfl, rfl, rfl, rfl⟩

/-- C4 witness: two concrete candidates, one closed and one closing
mid-visit, produce the no-viable response with both skip reasons. -/
theorem no_viable_response_shape_witness :
    optimizeTrip "S" none 1 []
        [⟨"C", "food", 4, some 5, 10, 10, 5, some 5, false, false⟩,
         ⟨"D", "nature", 5, some 5, 10, 10, 5, some 5, true, false⟩]
      = noViableResponse
          [⟨"C", "food", 4, some 5, 10, 10, 5, some 5, false, false⟩,
           ⟨"D", "nature", 5, some 5, 10, 10, 5, some 5, true, false⟩] 1 ∧
    (noViableResponse
        [⟨"C", "food", 4, some 5, 10, 10, 5, some 5, false, false⟩,
         ⟨"D", "nature", 5, some 5, 10, 10, 5, some 5, true, false⟩] 1).optimizedRoute = [] ∧
    (noViableResponse
        [⟨"C", "food", 4, some 5, 10, 10, 5, some 5, false, false⟩,
         ⟨"D", "nature", 5, some 5, 10, 10, 5, some 5, true, false⟩] 1).summary.totalDestinations
      = some 0 ∧
    (noViableResponse
        [⟨"C", "food", 4, some 5, 10, 10, 5, some 5, false, false⟩,
         ⟨"D", "nature", 5, some 5, 10, 10, 5, some 5, true, false⟩] 1).summary.totalLocations
      = none ∧
    (noViableResponse
        [⟨"C", "food", 4, some 5, 10, 10, 5, some 5, false, false⟩,
         ⟨"D", "nature", 5, some 5, 10, 10, 5, some 5, true, false⟩] 1).error
      = some "No open destinations available at this time" ∧
    (noViableResponse
        [⟨"C", "food", 4, some 5, 10, 10, 5, some 5, false, false⟩,
         ⟨"D", "nature", 5, some 5, 10, 10, 5, some 5, true, false⟩] 1).estimatedReturnTime
      = none ∧
    (noViableResponse
        [⟨"C", "food", 4, some 5, 10, 10, 5, some 5, false, false⟩,
         ⟨"D", "nature", 5, some 5, 10, 10, 5, some 5, true, false⟩] 1).startLocation = none ∧
    (noViableResponse
        [⟨"C", "food", 4, some 5, 10, 10, 5, some 5, false, false⟩,
         ⟨"D", "nature", 5, some 5, 10, 10, 5, some 5, true, false⟩] 1).skippedDestinations
      = ([⟨"C", "food", 4, some 5, 10, 10, 5, some 5, false, false⟩,
          ⟨"D", "nature", 5, some 5, 10, 10, 5, some 5, true, false⟩] : List Dest).map
          (fun d => ⟨d, none,
            if !d.isOpen then "Currently closed" else "Will close during visit"⟩) :=
  no_viable_response_shape "S" none 1 []
    [⟨"C", "food", 4, some 5, 10, 10, 5, some 5, false, false⟩,
     ⟨"D", "nature", 5, some 5, 10, 10, 5, some 5, true, false⟩]
    (by intro d hd
        simp only [List.mem_cons, List.not_mem_nil, or_false] at hd
        rcases hd with rfl | rfl <;> rfl)

/-- C4 counterexample: on an all-closed candidate list the response's
summary has no `totalLocations` key at all (the count key is named
`totalDestinations` there), and the envelope carries an error — it is not
the success envelope with `summary.totalLocations = 0`. -/
theorem no_viable_summary_key_differs :
    (optimizeTrip "S" none 1 []
        [⟨"C", "food", 4, some 5, 10, 10, 5, some 5, false, false⟩]).summary.totalLocations
      ≠ some 0 ∧
    (optimizeTrip "S" none 1 []
        [⟨"C", "food", 4, some 5, 10, 10, 5, some 5, false, false⟩]).error ≠ none := by
  constructor <;>
    simp [optimizeTrip, noViableResponse]

/-! ## Claim C9 -/

/-- Outcome of the oracle call as seen by the handler
(index.ts:154-204). -/
inductive OracleOutcome where
  | missingApiKey
  | httpError (status : ℕ)
  | noContent
  | unparseable
  | ok (destinations : List Dest)

/-- An error response of the handler: HTTP status plus the `error`
message of the JSON body (index.ts:360-366). -/
structure ErrorResponse where
  httpStatus : ℕ
  errorMessage : String
  deriving DecidableEq

/-- The handler's failure response for each oracle outcome: every thrown
error is caught at index.ts:360 and surfaced with HTTP status 500 and the
thrown message; an oracle HTTP failure throws
`"AI request failed: " ++ status` (index.ts:177-181). -/
def handlerFailure : OracleOutcome → Option ErrorResponse
  | .missingApiKey => some ⟨500, "LOVABLE_API_KEY is not configured"⟩
  | .httpError status => some ⟨500, "AI request failed: " ++ toString status⟩
  | .noContent => some ⟨500, "No content in AI response"⟩
  | .unparseable => some ⟨500, "Failed to parse AI response"⟩
  | .ok _ => none

/-- C9: when the oracle reports 429 or 402, the handler's failure
response differs from the generic upstream-failure responses (oracle 500,
missing content, unparseable output) and from the configuration-error
response, so the caller can tell a retryable condition apart — though
only through the error message: the HTTP status is 500 in every case. -/
theorem rate_limit_distinguishable :
    handlerFailure (.httpError 429) ≠ handlerFailure (.httpError 500) ∧
    handlerFailure (.httpError 402) ≠ handlerFailure (.httpError 500) ∧
    handlerFailure (.httpError 429) ≠ handlerFailure .unparseable ∧
    handlerFailure (.httpError 402) ≠ handlerFailure .unparseable ∧
    handlerFailure (.httpError 429) ≠ handlerFailure .noContent ∧
    handlerFailure (.httpError 402) ≠ handlerFailure .noContent ∧
    handlerFailure (.httpError 429) ≠ handlerFailure .missingApiKey ∧
    handlerFailure (.httpError 402) ≠ handlerFailure .missingApiKey ∧
    (handlerFailure (.httpError 429)).map ErrorResponse.httpStatus = some 500 ∧
    (handlerFailure (.httpError 402)).map ErrorResponse.httpStatus = some 500 ∧
    (handlerFailure (.httpError 500)).map ErrorResponse.httpStatus = some 500 := by
  refine ⟨?_, ?_, ?_, ?_, ?_, ?_, ?_, ?_, rfl, rfl, rfl⟩ <;> decide

end OptimizeTrip
